import Mathlib

/-!
Kaleidoscope lexer and parser (`final-kaleidoscope.cpp`).

A shallow embedding of the lexer (`gettok`), the recursive-descent parser
(`ParsePrimary`, `ParseBinOpRHS`, `ParseExpression`, `ParsePrototype`, ...) and
the driver (`HandleDefinition`, `MainLoop`, `main`).

Modelling conventions.

* The C++ globals (`LastChar`, `IdentifierStr`, `NumVal`, `CurTok`), the unread
  part of `stdin` and everything written to `stderr` are the fields of one
  explicit `State`, threaded through every function.
* `int` values (tokens, characters returned by `getchar`) are `Int`; the end of
  the input is `EOF = -1`.
* `double` is an abstract type `D`, and `strtod` is a parameter of type
  `String → D`; concrete evaluations use the literal text as the value.
* A `std::unique_ptr<T>` result is an `Option T` (`none` is `nullptr`).
* The mutually recursive parsing functions and the `while (true)` loops take a
  fuel argument; the outer `Option` of their result is `none` only when the
  fuel ran out.
-/

namespace Kaleidoscope

/-! ## Tokens -/

def tok_eof : Int := -1
def tok_def : Int := -2
def tok_extern : Int := -3
def tok_identifier : Int := -4
def tok_number : Int := -5
def tok_if : Int := -6
def tok_then : Int := -7
def tok_else : Int := -8
def tok_for : Int := -9
def tok_in : Int := -10
def tok_binary : Int := -11
def tok_unary : Int := -12
def tok_var : Int := -13

/-- The `EOF` value returned by `getchar` at the end of the input. -/
def EOF : Int := -1

/-- The `int` value of a character constant such as `'('`. -/
def chr (c : Char) : Int := (c.toNat : Int)

/-- The `char` an `int` character code is converted to when it is appended to a
`std::string`. -/
def toChar (c : Int) : Char := Char.ofNat c.toNat

/-! ## `<cctype>` in the C locale -/

/-- C `isspace`: space, `\t`, `\n`, `\v`, `\f`, `\r`. -/
def isspace (c : Int) : Bool := (decide (9 ≤ c) && decide (c ≤ 13)) || decide (c = 32)

/-- C `isalpha`: `A`-`Z` and `a`-`z`. -/
def isalpha (c : Int) : Bool :=
  (decide (65 ≤ c) && decide (c ≤ 90)) || (decide (97 ≤ c) && decide (c ≤ 122))

/-- C `isdigit`: `0`-`9`. -/
def isdigit (c : Int) : Bool := decide (48 ≤ c) && decide (c ≤ 57)

/-- C `isalnum`. -/
def isalnum (c : Int) : Bool := isalpha c || isdigit c

/-! ## State -/

/-- The globals of the program together with its input and error streams. -/
structure State (D : Type) where
  /-- the characters of `stdin` not yet read by `getchar` -/
  input : List Char
  /-- `static int LastChar` of `gettok` -/
  LastChar : Int
  IdentifierStr : String
  NumVal : D
  CurTok : Int
  /-- what has been written to `stderr`, oldest first -/
  err : List String

section Lexer

variable {D : Type} (strtod : String → D)

/-- The state in which the program starts: `LastChar = ' '`, the other statics
zero-initialised, nothing read and nothing written. -/
def State.fresh (zero : D) (text : List Char) : State D :=
  { input := text, LastChar := chr ' ', IdentifierStr := "", NumVal := zero,
    CurTok := 0, err := [] }

/-- The call `getchar()` on the unread input: the next character code, or `EOF`. -/
def getchar (input : List Char) : Int × List Char :=
  match input with
  | [] => (EOF, [])
  | c :: cs => (chr c, cs)

/-- The loop `while (isspace(LastChar)) LastChar = getchar();` -/
def skipSpaces : Int → List Char → Int × List Char
  | last, [] => if isspace last then (EOF, []) else (last, [])
  | last, c :: cs => if isspace last then skipSpaces (chr c) cs else (last, c :: cs)

/-- The loop `while (isalnum((LastChar = getchar()))) IdentifierStr += LastChar;` -/
def identLoop : String → List Char → String × Int × List Char
  | s, [] => (s, EOF, [])
  | s, c :: cs =>
    if isalnum (chr c) then identLoop (s.push (toChar (chr c))) cs else (s, chr c, cs)

/-- The loop `do { NumStr += LastChar; LastChar = getchar(); }
while (isdigit(LastChar) || LastChar == '.');` -/
def numLoop : String → Int → List Char → String × Int × List Char
  | s, last, [] => (s.push (toChar last), EOF, [])
  | s, last, c :: cs =>
    if isdigit (chr c) || decide (chr c = chr '.') then numLoop (s.push (toChar last)) (chr c) cs
    else (s.push (toChar last), chr c, cs)

/-- The loop `do { LastChar = getchar(); }
while (LastChar != EOF && LastChar != '\n' && LastChar != '\r');` -/
def commentLoop : List Char → Int × List Char
  | [] => (EOF, [])
  | c :: cs =>
    if chr c ≠ EOF ∧ chr c ≠ chr '\n' ∧ chr c ≠ chr '\r' then commentLoop cs else (chr c, cs)

/-- The last two steps of `gettok`: `tok_eof` at the end of the input,
otherwise the character itself, with `LastChar` advanced. -/
def gettokChar (st : State D) (last : Int) (inp : List Char) : Int × State D :=
  if last = EOF then (tok_eof, { st with LastChar := last, input := inp })
  else (last, { st with LastChar := (getchar inp).1, input := (getchar inp).2 })

/-- The body of `gettok`. The only recursion is `return gettok();` after a
comment; it is taken at most once per character read, so `gettok` below runs it
with more fuel than there are unread characters and the first equation is never
reached (`gettokFuel_eq_gettok`). -/
def gettokFuel : Nat → State D → Int × State D
  | 0, st => (tok_eof, st)
  | n + 1, st =>
    let sk := skipSpaces st.LastChar st.input
    if isalpha sk.1 then
      let r := identLoop (String.singleton (toChar sk.1)) sk.2
      let st1 := { st with IdentifierStr := r.1, LastChar := r.2.1, input := r.2.2 }
      if r.1 = "def" then (tok_def, st1)
      else if r.1 = "extern" then ( tok_extern, st1)
      else (tok_identifier, st1)
    else if isdigit sk.1 || decide (sk.1 = chr '.') then
      let r := numLoop "" sk.1 sk.2
      (tok_number, { st with NumVal := strtod r.1, LastChar := r.2.1, input := r.2.2 })
    else if sk.1 = chr '#' then
      let r := commentLoop sk.2
      if r.1 ≠ EOF then gettokFuel n { st with LastChar := r.1, input := r.2 }
      else gettokChar st r.1 r.2
    else gettokChar st sk.1 sk.2

/-- The function `gettok()`: the next token and the state after reading it. -/
def gettok (st : State D) : Int × State D :=
  gettokFuel strtod (st.input.length + 1) st

/-- The function `getNextToken()`: `CurTok = gettok()`. -/
def getNextToken (st : State D) : State D :=
  { (gettok strtod st).2 with CurTok := (gettok strtod st).1 }

/-- The function `LogError(Str)`: `fprintf(stderr, "LogError: %s\n", Str)`. -/
def LogError (Str : String) (st : State D) : State D :=
  { st with err := st.err ++ ["LogError: " ++ Str ++ "\n"] }

/-- The call `fprintf(stderr, msg)`. -/
def eprint (msg : String) (st : State D) : State D :=
  { st with err := st.err ++ [msg] }

end Lexer

/-! ## Syntax trees -/

/-- The classes derived from `ExprAST`: `NumberExprAST`, `VariableExprAST`,
`BinaryExprAST` (the operator is kept as the `int` token it was built from) and
`CallExprAST`. -/
inductive ExprAST (D : Type) where
  | Number (Val : D)
  | Variable (Name : String)
  | Binary (Op : Int) (LHS RHS : ExprAST D)
  | Call (Callee : String) (Args : List (ExprAST D))

/-- The class `PrototypeAST`: the name of a function and the names of its arguments. -/
structure PrototypeAST where
  Name : String
  Args : List String
  deriving DecidableEq, Repr

/-- The class `FunctionAST`: a prototype and the body expression. -/
structure FunctionAST (D : Type) where
  Proto : PrototypeAST
  Body : ExprAST D

/-! ## Parser -/

section Parser

variable {D : Type} (strtod : String → D)

/-- What a parsing function yields: `none` when the fuel ran out, otherwise the
returned pointer (`none` for `nullptr`) and the state it leaves. -/
abbrev Res (α D : Type) := Option (Option α × State D)

/-- The function `ParseNumberExpr`: a `NumberExprAST` of `NumVal`; consumes the number. -/
def ParseNumberExpr (st : State D) : Option (ExprAST D) × State D :=
  let Result := ExprAST.Number st.NumVal
  (some Result, getNextToken strtod st)

/-- The function `GetTokPrecedence`: the precedence of the binary operator `CurTok`, `-1`
when it is not one. -/
def GetTokPrecedence (st : State D) : Int :=
  if st.CurTok = chr '<' ∨ st.CurTok = chr '>' then 10
  else if st.CurTok = chr '+' ∨ st.CurTok = chr '-' then 20
  else if st.CurTok = chr '*' ∨ st.CurTok = chr '/' then 40
  else -1

mutual

/-- The function `ParseParenExpr`. -/
def ParseParenExpr : Nat → State D → Res (ExprAST D) D
  | 0, _ => none
  | fuel + 1, st =>
    match ParseExpression fuel (getNextToken strtod st) with
    | none => none
    | some (none, st1) => some (none, st1)
    | some (some V, st1) =>
      if st1.CurTok ≠ chr ')' then some (some V, getNextToken strtod st1)
      else some (none, LogError "expect ')'" st1)

/-- The `while (true)` loop of `ParseIdentifierExpr` that reads the arguments
of a call; `Args` are the arguments pushed so far. The result is `Args` at the
`break`. -/
def ParseIdentifierExpr_args : Nat → List (ExprAST D) → State D → Res (List (ExprAST D)) D
  | 0, _, _ => none
  | fuel + 1, Args, st =>
    match ParseExpression fuel st with
    | none => none
    | some (none, st1) => some (none, st1)
    | some (some Arg, st1) =>
      if st1.CurTok = chr ')' then some (some (Args ++ [Arg]), st1)
      else if st1.CurTok ≠ chr ',' then
        some (none, LogError "Expected ')' or ',' in argument list" st1)
      else ParseIdentifierExpr_args fuel (Args ++ [Arg]) (getNextToken strtod st1)

/-- The function `ParseIdentifierExpr`: a variable reference, or a call when the identifier
is followed by `(`. -/
def ParseIdentifierExpr : Nat → State D → Res (ExprAST D) D
  | 0, _ => none
  | fuel + 1, st =>
    let IdName := st.IdentifierStr
    let st1 := getNextToken strtod st
    if st1.CurTok ≠ chr '(' then some (some (ExprAST.Variable IdName), st1)
    else
      let st2 := getNextToken strtod st1
      if st2.CurTok ≠ chr ')' then
        match ParseIdentifierExpr_args fuel [] st2 with
        | none => none
        | some (none, st3) => some (none, st3)
        | some (some Args, st3) => some (some (ExprAST.Call IdName Args), getNextToken strtod st3)
      else some (some (ExprAST.Call IdName []), getNextToken strtod st2)

/-- The function `ParsePrimary`: dispatch on `CurTok`. -/
def ParsePrimary : Nat → State D → Res (ExprAST D) D
  | 0, _ => none
  | fuel + 1, st =>
    if st.CurTok = tok_identifier then ParseIdentifierExpr fuel st
    else if st.CurTok = tok_number then some (ParseNumberExpr strtod st)
    else if st.CurTok = chr '(' then ParseParenExpr fuel st
    else some (none, LogError "unknown token when expecting an expression" st)

/-- The function `ParseExpression`: a primary, then `ParseBinOpRHS(0, LHS)`. -/
def ParseExpression : Nat → State D → Res (ExprAST D) D
  | 0, _ => none
  | fuel + 1, st =>
    match ParsePrimary fuel st with
    | none => none
    | some (none, st1) => some (none, st1)
    | some (some LHS, st1) => ParseBinOpRHS fuel 0 LHS st1

/-- The function `ParseBinOpRHS(ExprPrec, LHS)`; one unit of fuel per iteration of its
`while (true)`. After `std::make_unique<BinaryExprAST>(BinOp, std::move(LHS),
std::move(RHS))` the pointer `RHS` has been moved from, so it is null when
`if (!RHS)` tests it. -/
def ParseBinOpRHS : Nat → Int → ExprAST D → State D → Res (ExprAST D) D
  | 0, _, _, _ => none
  | fuel + 1, ExprPrec, LHS, st =>
    let TokPrec := GetTokPrecedence st
    if TokPrec < ExprPrec then some (some LHS, st)
    else
      let BinOp := st.CurTok
      match ParsePrimary fuel (getNextToken strtod st) with
      | none => none
      | some (some RHS, st1) =>
        let NextPrec := GetTokPrecedence st1
        if TokPrec < NextPrec then
          let LHS1 := ExprAST.Binary BinOp LHS RHS
          let RHS1 : Option (ExprAST D) := none
          if RHS1.isNone then some (none, st1)
          else ParseBinOpRHS fuel ExprPrec LHS1 st1
        else some (none, st1)
      | some (none, st1) => ParseBinOpRHS fuel ExprPrec LHS st1

end

/-- The loop `while (getNextToken() == tok_identifier)
ArgNames.push_back(IdentifierStr);` of `ParsePrototype`. -/
def ParsePrototype_args : Nat → List String → State D → Option (List String × State D)
  | 0, _, _ => none
  | fuel + 1, ArgNames, st =>
    let st1 := getNextToken strtod st
    if st1.CurTok = tok_identifier then
      ParsePrototype_args fuel (ArgNames ++ [st1.IdentifierStr]) st1
    else some (ArgNames, st1)

/-- The function `ParsePrototype`. -/
def ParsePrototype (fuel : Nat) (st : State D) : Res PrototypeAST D :=
  if st.CurTok ≠ tok_identifier then
    some (none, LogError "Expected function name in prototype" st)
  else
    let FnName := st.IdentifierStr
    let st1 := getNextToken strtod st
    if st1.CurTok ≠ chr '(' then some (none, LogError "Expected '(' in prototype" st1)
    else
      match ParsePrototype_args strtod fuel [] st1 with
      | none => none
      | some (ArgNames, st2) =>
        if st2.CurTok ≠ chr ')' then some (none, LogError "Expected ')' in prototype" st2)
        else some (some ⟨FnName, ArgNames⟩, getNextToken strtod st2)

/-- The function `ParseDefinition`: `def`, a prototype, an expression. -/
def ParseDefinition (fuel : Nat) (st : State D) : Res (FunctionAST D) D :=
  match ParsePrototype strtod fuel (getNextToken strtod st) with
  | none => none
  | some (none, st1) => some (none, st1)
  | some (some Proto, st1) =>
    match ParseExpression strtod fuel st1 with
    | none => none
    | some (some E, st2) => some (some ⟨Proto, E⟩, st2)
    | some (none, st2) => some (none, st2)

/-- The function `ParseExtern`: `extern`, a prototype. -/
def ParseExtern (fuel : Nat) (st : State D) : Res PrototypeAST D :=
  ParsePrototype strtod fuel (getNextToken strtod st)

/-- The function `ParseTopLevelExpr`: an expression, wrapped in an anonymous function. -/
def ParseTopLevelExpr (fuel : Nat) (st : State D) : Res (FunctionAST D) D :=
  match ParseExpression strtod fuel st with
  | none => none
  | some (some E, st1) => some (some ⟨⟨"", []⟩, E⟩, st1)
  | some (none, st1) => some (none, st1)

/-! ## Driver -/

/-- The function `HandleDefinition`. -/
def HandleDefinition (fuel : Nat) (st : State D) : Option (State D) :=
  match ParseDefinition strtod fuel st with
  | none => none
  | some (some _, st1) => some (eprint "Parsed a function definition.\n" st1)
  | some (none, st1) => some (getNextToken strtod st1)

/-- The function `HandleExtern`. -/
def HandleExtern (fuel : Nat) (st : State D) : Option (State D) :=
  match ParseExtern strtod fuel st with
  | none => none
  | some (some _, st1) => some (eprint "Parsed an extern\n" st1)
  | some (none, st1) => some (getNextToken strtod st1)

/-- The function `HandleTopLevelExpression`. -/
def HandleTopLevelExpression (fuel : Nat) (st : State D) : Option (State D) :=
  match ParseTopLevelExpr strtod fuel st with
  | none => none
  | some (some _, st1) => some (eprint "Parsed a top-level expr\n" st1)
  | some (none, st1) => some (getNextToken strtod st1)

/-- The function `MainLoop`; one unit of fuel per iteration. The result is the state in
which it returns. -/
def MainLoop : Nat → State D → Option (State D)
  | 0, _ => none
  | fuel + 1, st =>
    let st0 := eprint "ready> " st
    if st0.CurTok = tok_eof then some st0
    else if st0.CurTok = chr ';' then MainLoop fuel (getNextToken strtod st0)
    else if st0.CurTok = tok_def then (HandleDefinition strtod fuel st0).bind (MainLoop fuel)
    else if st0.CurTok = tok_extern then (HandleExtern strtod fuel st0).bind (MainLoop fuel)
    else (HandleTopLevelExpression strtod fuel st0).bind (MainLoop fuel)

/-- The function `main`: the prompt, the first token, then `MainLoop`. -/
def main (fuel : Nat) (st : State D) : Option (State D) :=
  MainLoop strtod fuel (getNextToken strtod (eprint "ready> " st))

/-- The state in which a parsing function is entered for the text `text`: the
fresh state after the first `getNextToken()`. -/
def start (text : String) : State String :=
  getNextToken id (State.fresh "" text.toList)

end Parser

/-! ## Descriptions of inputs -/

section Inputs

variable {D : Type} (strtod : String → D)

/-- The state after reading the identifier tokens `ps`, one `getNextToken()`
each, starting from `st`; `none` when one of the tokens read is not the
identifier expected. -/
def identRun (st : State D) : List String → Option (State D)
  | [] => some st
  | p :: ps =>
    if (getNextToken strtod st).CurTok = tok_identifier
        ∧ (getNextToken strtod st).IdentifierStr = p then
      identRun (getNextToken strtod st) ps
    else none

/-- Whether a character may occur in a numeric literal: a digit or `.`. -/
def isNumChar (c : Char) : Bool := isdigit (chr c) || decide (c = '.')

/-- Whether a text consists solely of whitespace characters and `#` comments,
each comment running to the next `\n` or `\r` or to the end of the text. The
flag tells whether the text starts inside a comment. -/
def onlyWsComments : Bool → List Char → Bool
  | _, [] => true
  | false, c :: cs =>
    if isspace (chr c) then onlyWsComments false cs
    else if c = '#' then onlyWsComments true cs
    else false
  | true, c :: cs =>
    if c = '\n' ∨ c = '\r' then onlyWsComments false cs else onlyWsComments true cs

/-- Whether a text consists of whitespace characters and of `#` comments that
each end with a `\n` or `\r` inside the text: what `gettok` skips before a
token. The flag tells whether the text starts inside a comment. -/
def wsClosedComments : Bool → List Char → Bool
  | false, [] => true
  | true, [] => false
  | false, c :: cs =>
    if isspace (chr c) then wsClosedComments false cs
    else if c = '#' then wsClosedComments true cs
    else false
  | true, c :: cs =>
    if c = '\n' ∨ c = '\r' then wsClosedComments false cs else wsClosedComments true cs

end Inputs

/-- The precedence table as the specification gives it: `<` and `>` 10, `+`
and `-` 20, `*` and `/` 40, anything else `-1`. -/
def specPrecedence (t : Int) : Int :=
  match [(chr '<', (10 : Int)), (chr '>', 10), (chr '+', 20), (chr '-', 20),
      (chr '*', 40), (chr '/', 40)].lookup t with
  | some p => p
  | none => -1

/-! ## Properties of trees -/

section Trees

variable {D : Type}

mutual

/-- Whether a tree contains a `Binary` node. -/
def ExprAST.hasBinary : ExprAST D → Bool
  | .Number _ => false
  | .Variable _ => false
  | .Binary _ _ _ => true
  | .Call _ Args => hasBinaryList Args

/-- Whether one of the trees of a list contains a `Binary` node. -/
def hasBinaryList : List (ExprAST D) → Bool
  | [] => false
  | a :: as => a.hasBinary || hasBinaryList as

end

mutual

/-- Whether the operator of every `Binary` node of a tree is one of `ops`. -/
def ExprAST.binaryOpsIn (ops : List Int) : ExprAST D → Bool
  | .Number _ => true
  | .Variable _ => true
  | .Binary Op LHS RHS => decide (Op ∈ ops) && LHS.binaryOpsIn ops && RHS.binaryOpsIn ops
  | .Call _ Args => binaryOpsInList ops Args

/-- Whether the operator of every `Binary` node of the trees of a list is one
of `ops`. -/
def binaryOpsInList (ops : List Int) : List (ExprAST D) → Bool
  | [] => true
  | a :: as => a.binaryOpsIn ops && binaryOpsInList ops as

end

end Trees

/-! ## The parser with a record of the nodes it builds

`ParseBinOpRHS` builds a `BinaryExprAST` that it never returns, so what it
builds does not show in the results of the functions above. The functions below
are the same functions with one more value threaded through them: the list of
the `BinaryExprAST` objects built so far, to which the `std::make_unique` of
`ParseBinOpRHS` adds the object it builds, with the operator and the two
operand pointers that it is given there. In `ParseBinOpRHS_tr` the operands are
pointers, which may be null, as they are in the source. Nothing else differs
(`ParseExpression_tr_erase` and the lemmas before it).
-/

section Traced

variable {D : Type} (strtod : String → D)

/-- The class `BinaryExprAST` as its constructor fills it: the operator and the
two operand pointers, `none` a null pointer. -/
structure BinaryExprAST (D : Type) where
  Op : Int
  LHS : Option (ExprAST D)
  RHS : Option (ExprAST D)

/-- The tree of a `BinaryExprAST` whose two operands are there. -/
def BinaryExprAST.tree : BinaryExprAST D → Option (ExprAST D)
  | ⟨Op, some LHS, some RHS⟩ => some (ExprAST.Binary Op LHS RHS)
  | _ => none

/-- What a parsing function yields, with the nodes built so far: `none` when
the fuel ran out, otherwise the returned pointer, the state and the nodes. -/
abbrev ResT (α D : Type) := Option (Option α × State D × List (BinaryExprAST D))

mutual

/-- The function `ParseParenExpr`, recording the nodes built. -/
def ParseParenExpr_tr : Nat → State D → List (BinaryExprAST D) → ResT (ExprAST D) D
  | 0, _, _ => none
  | fuel + 1, st, b =>
    match ParseExpression_tr fuel (getNextToken strtod st) b with
    | none => none
    | some (none, st1, b1) => some (none, st1, b1)
    | some (some V, st1, b1) =>
      if st1.CurTok ≠ chr ')' then some (some V, getNextToken strtod st1, b1)
      else some (none, LogError "expect ')'" st1, b1)

/-- The argument loop of `ParseIdentifierExpr`, recording the nodes built. -/
def ParseIdentifierExpr_args_tr :
    Nat → List (ExprAST D) → State D → List (BinaryExprAST D) → ResT (List (ExprAST D)) D
  | 0, _, _, _ => none
  | fuel + 1, Args, st, b =>
    match ParseExpression_tr fuel st b with
    | none => none
    | some (none, st1, b1) => some (none, st1, b1)
    | some (some Arg, st1, b1) =>
      if st1.CurTok = chr ')' then some (some (Args ++ [Arg]), st1, b1)
      else if st1.CurTok ≠ chr ',' then
        some (none, LogError "Expected ')' or ',' in argument list" st1, b1)
      else ParseIdentifierExpr_args_tr fuel (Args ++ [Arg]) (getNextToken strtod st1) b1

/-- The function `ParseIdentifierExpr`, recording the nodes built. -/
def ParseIdentifierExpr_tr : Nat → State D → List (BinaryExprAST D) → ResT (ExprAST D) D
  | 0, _, _ => none
  | fuel + 1, st, b =>
    let IdName := st.IdentifierStr
    let st1 := getNextToken strtod st
    if st1.CurTok ≠ chr '(' then some (some (ExprAST.Variable IdName), st1, b)
    else
      let st2 := getNextToken strtod st1
      if st2.CurTok ≠ chr ')' then
        match ParseIdentifierExpr_args_tr fuel [] st2 b with
        | none => none
        | some (none, st3, b1) => some (none, st3, b1)
        | some (some Args, st3, b1) =>
          some (some (ExprAST.Call IdName Args), getNextToken strtod st3, b1)
      else some (some (ExprAST.Call IdName []), getNextToken strtod st2, b)

/-- The function `ParsePrimary`, recording the nodes built. -/
def ParsePrimary_tr : Nat → State D → List (BinaryExprAST D) → ResT (ExprAST D) D
  | 0, _, _ => none
  | fuel + 1, st, b =>
    if st.CurTok = tok_identifier then ParseIdentifierExpr_tr fuel st b
    else if st.CurTok = tok_number then
      some ((ParseNumberExpr strtod st).1, (ParseNumberExpr strtod st).2, b)
    else if st.CurTok = chr '(' then ParseParenExpr_tr fuel st b
    else some (none, LogError "unknown token when expecting an expression" st, b)

/-- The function `ParseExpression`, recording the nodes built. -/
def ParseExpression_tr : Nat → State D → List (BinaryExprAST D) → ResT (ExprAST D) D
  | 0, _, _ => none
  | fuel + 1, st, b =>
    match ParsePrimary_tr fuel st b with
    | none => none
    | some (none, st1, b1) => some (none, st1, b1)
    | some (some LHS, st1, b1) => ParseBinOpRHS_tr fuel 0 (some LHS) st1 b1

/-- The function `ParseBinOpRHS`, recording the nodes built: the object made by
`std::make_unique<BinaryExprAST>(BinOp, std::move(LHS), std::move(RHS))` is
added to the record, with the pointers `LHS` and `RHS` as they are at that
line. -/
def ParseBinOpRHS_tr :
    Nat → Int → Option (ExprAST D) → State D → List (BinaryExprAST D) → ResT (ExprAST D) D
  | 0, _, _, _, _ => none
  | fuel + 1, ExprPrec, LHS, st, b =>
    let TokPrec := GetTokPrecedence st
    if TokPrec < ExprPrec then some (LHS, st, b)
    else
      let BinOp := st.CurTok
      match ParsePrimary_tr fuel (getNextToken strtod st) b with
      | none => none
      | some (RHS, st1, b1) =>
        if RHS.isSome then
          let NextPrec := GetTokPrecedence st1
          if TokPrec < NextPrec then
            let LHS1 : BinaryExprAST D := ⟨BinOp, LHS, RHS⟩
            let b2 := b1 ++ [LHS1]
            let RHS1 : Option (ExprAST D) := none
            if RHS1.isNone then some (none, st1, b2)
            else ParseBinOpRHS_tr fuel ExprPrec LHS1.tree st1 b2
          else some (none, st1, b1)
        else ParseBinOpRHS_tr fuel ExprPrec LHS st1 b1

end

/-- The function `ParseDefinition`, recording the nodes built. -/
def ParseDefinition_tr (fuel : Nat) (st : State D) (b : List (BinaryExprAST D)) :
    ResT (FunctionAST D) D :=
  match ParsePrototype strtod fuel (getNextToken strtod st) with
  | none => none
  | some (none, st1) => some (none, st1, b)
  | some (some Proto, st1) =>
    match ParseExpression_tr strtod fuel st1 b with
    | none => none
    | some (some E, st2, b1) => some (some ⟨Proto, E⟩, st2, b1)
    | some (none, st2, b1) => some (none, st2, b1)

/-- The function `ParseTopLevelExpr`, recording the nodes built. -/
def ParseTopLevelExpr_tr (fuel : Nat) (st : State D) (b : List (BinaryExprAST D)) :
    ResT (FunctionAST D) D :=
  match ParseExpression_tr strtod fuel st b with
  | none => none
  | some (some E, st1, b1) => some (some ⟨⟨"", []⟩, E⟩, st1, b1)
  | some (none, st1, b1) => some (none, st1, b1)

/-- A result without the record of the nodes built. -/
def erase {α : Type} (x : ResT α D) : Res α D :=
  x.map (fun r => (r.1, r.2.1))

/-- A node as `ParseBinOpRHS` may build it when called with `ExprPrec ≥ 0` and
an operand that is there: the operator is one of `ops` and the two operands are
there, trees without a `Binary` node. -/
def builtOK (ops : List Int) : BinaryExprAST D → Bool
  | ⟨Op, some LHS, some RHS⟩ => decide (Op ∈ ops) && !LHS.hasBinary && !RHS.hasBinary
  | _ => false

end Traced

/-! ## Tokens left -/

section Measure

variable {D : Type}

/-- The number of characters still to look at, for a lookahead character and
an unread input: the lookahead counts unless it is `EOF`. -/
def pend (last : Int) (inp : List Char) : Nat :=
  inp.length + (if last = EOF then 0 else 1)

/-- The number of characters the lexer of a state has still to look at. -/
def pending (st : State D) : Nat :=
  pend st.LastChar st.input

/-- A bound on the tokens not yet consumed: the characters still to look at,
and the current token unless it is `tok_eof`. -/
def tokensLeft (st : State D) : Nat :=
  pending st + (if st.CurTok = tok_eof then 0 else 1)

/-- The result of a parsing function from `st` made progress: a token was
consumed, or the function failed with the same token still current. -/
def progress {α : Type} (st : State D) (r : Option α) (st1 : State D) : Prop :=
  tokensLeft st1 < tokensLeft st ∨
    (r = none ∧ st1.CurTok = st.CurTok ∧ tokensLeft st1 ≤ tokensLeft st)

end Measure

/-! ## Agreement of two runs -/

section Agreement

variable {D : Type}

/-- Two results of `gettok` agree: the same token, the same unread input and
lookahead character, and the same text or value when the token is an identifier
or a number. `a` and `b` are the states the two calls started from; `stderr` is
left as it was. -/
def lexSim (a b : State D) (ra rb : Int × State D) : Prop :=
  ra.1 = rb.1 ∧ ra.2.input = rb.2.input ∧ ra.2.LastChar = rb.2.LastChar ∧
    EOF ≤ ra.2.LastChar ∧ ra.2.err = a.err ∧ rb.2.err = b.err ∧
    (ra.1 = tok_identifier → ra.2.IdentifierStr = rb.2.IdentifierStr) ∧
    (ra.1 = tok_number → ra.2.NumVal = rb.2.NumVal)

/-- Two states agree up to what was written to `stderr` before (`pa` in the
one run, `pb` in the other) and up to the stale contents of `IdentifierStr` and
`NumVal`: these are compared only when the current token is an identifier or a
number. -/
def sim (pa pb : List String) (a b : State D) : Prop :=
  a.input = b.input ∧ a.LastChar = b.LastChar ∧ EOF ≤ a.LastChar ∧ a.CurTok = b.CurTok ∧
    (a.CurTok = tok_identifier → a.IdentifierStr = b.IdentifierStr) ∧
    (a.CurTok = tok_number → a.NumVal = b.NumVal) ∧
    ∃ y, a.err = pa ++ y ∧ b.err = pb ++ y

/-- Two results of a parsing function agree: both ran out of fuel, or both
returned the same pointer and left agreeing states. -/
def resSim {α : Type} (pa pb : List String) : Res α D → Res α D → Prop
  | none, none => True
  | some (x, a), some (y, b) => x = y ∧ sim pa pb a b
  | _, _ => False

/-- Two results of the driver agree. -/
def optSim (pa pb : List String) : Option (State D) → Option (State D) → Prop
  | none, none => True
  | some a, some b => sim pa pb a b
  | _, _ => False

end Agreement

/-! ## The lexer: fuel of `gettok` -/

section LexerLemmas

variable {D : Type} (strtod : String → D)

theorem skipSpaces_length (last : Int) (inp : List Char) :
    (skipSpaces last inp).2.length ≤ inp.length := by
  induction inp generalizing last with
  | nil => simp only [skipSpaces]; split <;> simp
  | cons c cs ih =>
    simp only [skipSpaces]
    split
    · exact Nat.le_trans (ih _) (by simp)
    · simp

theorem commentLoop_length (inp : List Char) (h : (commentLoop inp).1 ≠ EOF) :
    (commentLoop inp).2.length < inp.length := by
  induction inp with
  | nil => simp [commentLoop] at h
  | cons c cs ih =>
    simp only [commentLoop] at h ⊢
    split
    · rename_i hc
      rw [if_pos hc] at h
      exact Nat.lt_trans (ih h) (by simp)
    · simp

/-- The fuel of `gettokFuel` does not matter once it exceeds the number of
unread characters: the equation for fuel `0` is never reached from `gettok`. -/
theorem gettokFuel_fuel (n m : Nat) (st : State D)
    (hn : st.input.length < n) (hm : st.input.length < m) :
    gettokFuel strtod n st = gettokFuel strtod m st := by
  induction n generalizing m st with
  | zero => omega
  | succ n ih =>
    cases m with
    | zero => omega
    | succ m =>
      simp only [gettokFuel]
      split
      · rfl
      · split
        · rfl
        · split
          · split
            · rename_i hne
              have h1 := commentLoop_length _ hne
              have h2 := skipSpaces_length st.LastChar st.input
              apply ih
              · show (commentLoop _).2.length < n
                omega
              · show (commentLoop _).2.length < m
                omega
            · rfl
          · rfl

theorem gettokFuel_eq_gettok (n : Nat) (st : State D) (hn : st.input.length < n) :
    gettokFuel strtod n st = gettok strtod st :=
  gettokFuel_fuel strtod n _ st hn (Nat.lt_succ_self _)

end LexerLemmas

/-! ## The lexer: whitespace, comments and numbers -/

section LexerClaims

variable {D : Type} (strtod : String → D)

theorem toChar_chr (c : Char) : toChar (chr c) = c := by
  simp [toChar, chr]

theorem chr_inj {a b : Char} : chr a = chr b ↔ a = b := by
  constructor
  · intro h
    have h1 : toChar (chr a) = toChar (chr b) := by rw [h]
    simpa [toChar_chr] using h1
  · intro h; rw [h]

theorem chr_ne_EOF (c : Char) : chr c ≠ EOF := by
  simp only [chr, EOF]; omega

theorem skipSpaces_of_not_space (last : Int) (inp : List Char) (h : isspace last = false) :
    skipSpaces last inp = (last, inp) := by
  cases inp <;> simp [skipSpaces, h]

/-- Skipping from a whitespace `LastChar` over a text of whitespace and
comments stops at the end of the input or at the `#` of a comment. -/
theorem skipSpaces_onlyWs (last : Int) (inp : List Char) (hl : isspace last = true)
    (h : onlyWsComments false inp = true) :
    skipSpaces last inp = (EOF, []) ∨
      ((skipSpaces last inp).1 = chr '#' ∧ onlyWsComments true (skipSpaces last inp).2 = true) := by
  induction inp generalizing last with
  | nil => left; simp [skipSpaces, hl]
  | cons c cs ih =>
    simp only [skipSpaces, hl, if_true]
    simp only [onlyWsComments] at h
    split at h
    · rename_i hc
      exact ih _ hc h
    · rename_i hc
      split at h
      · rename_i hh
        right
        subst hh
        rw [skipSpaces_of_not_space _ _ (by decide)]
        exact ⟨rfl, h⟩
      · exact absurd h (by simp)

/-- Inside a comment of such a text, the comment loop stops at the end of the
input, or at a line end after which the text is again whitespace and
comments. -/
theorem commentLoop_onlyWs (inp : List Char) (h : onlyWsComments true inp = true) :
    commentLoop inp = (EOF, []) ∨
      (isspace (commentLoop inp).1 = true ∧ (commentLoop inp).1 ≠ EOF ∧
        onlyWsComments false (commentLoop inp).2 = true) := by
  induction inp with
  | nil => left; rfl
  | cons c cs ih =>
    simp only [onlyWsComments] at h
    simp only [commentLoop]
    split at h
    · rename_i hc
      right
      have hc2 : ¬ (chr c ≠ EOF ∧ chr c ≠ chr '\n' ∧ chr c ≠ chr '\r') := by
        rcases hc with hc | hc <;> subst hc <;> decide
      rw [if_neg hc2]
      refine ⟨?_, chr_ne_EOF c, h⟩
      show isspace (chr c) = true
      rcases hc with hc | hc <;> subst hc <;> decide
    · rename_i hc
      have hc2 : chr c ≠ EOF ∧ chr c ≠ chr '\n' ∧ chr c ≠ chr '\r' := by
        refine ⟨chr_ne_EOF c, ?_, ?_⟩
        · intro e; exact hc (Or.inl (chr_inj.mp e))
        · intro e; exact hc (Or.inr (chr_inj.mp e))
      rw [if_pos hc2]
      exact ih h

theorem gettokFuel_onlyWs (n : Nat) (st : State D) (hn : st.input.length < n)
    (hl : isspace st.LastChar = true) (h : onlyWsComments false st.input = true) :
    (gettokFuel strtod n st).1 = tok_eof ∧ (gettokFuel strtod n st).2.input = [] := by
  induction n generalizing st with
  | zero => omega
  | succ n ih =>
    simp only [gettokFuel]
    rcases skipSpaces_onlyWs st.LastChar st.input hl h with hs | ⟨hs1, hs2⟩
    · rw [hs]
      simp [isalpha, isdigit, EOF, chr, gettokChar, tok_eof]
    · have hlen := skipSpaces_length st.LastChar st.input
      rw [hs1]
      have e1 : isalpha (chr '#') = false := by decide
      have e2 : (isdigit (chr '#') || decide (chr '#' = chr '.')) = false := by decide
      simp only [e1, e2, if_true, Bool.false_eq_true, if_false]
      rcases commentLoop_onlyWs _ hs2 with hc | ⟨hc1, hc2, hc3⟩
      · rw [hc]
        simp [gettokChar, EOF, tok_eof]
      · rw [if_pos hc2]
        have hlen2 := commentLoop_length _ hc2
        apply ih
        · show (commentLoop _).2.length < n
          omega
        · exact hc1
        · exact hc3

/-- C9: on a text made only of whitespace and `#` comments the first `gettok`
of a fresh lexer returns `tok_eof`, having read the whole text. -/
theorem C9_whitespace_and_comments_lex_to_eof (zero : D) (text : List Char)
    (h : onlyWsComments false text = true) :
    (gettok strtod (State.fresh zero text)).1 = tok_eof ∧
      (gettok strtod (State.fresh zero text)).2.input = [] :=
  gettokFuel_onlyWs strtod _ _ (Nat.lt_succ_self _)
    (show isspace (chr ' ') = true by decide) h

theorem numCond_eq (c : Char) :
    (isdigit (chr c) || decide (chr c = chr '.')) = isNumChar c := by
  simp [isNumChar, chr_inj]

theorem isNumChar_not_space (c : Char) (h : isNumChar c = true) : isspace (chr c) = false := by
  simp only [isNumChar, Bool.or_eq_true, decide_eq_true_eq] at h
  rcases h with h | h
  · simp only [isdigit, Bool.and_eq_true, decide_eq_true_eq] at h
    simp only [isspace, Bool.or_eq_false_iff, Bool.and_eq_false_iff, decide_eq_false_iff_not]
    omega
  · subst h; decide

theorem isNumChar_not_alpha (c : Char) (h : isNumChar c = true) : isalpha (chr c) = false := by
  simp only [isNumChar, Bool.or_eq_true, decide_eq_true_eq] at h
  rcases h with h | h
  · simp only [isdigit, Bool.and_eq_true, decide_eq_true_eq] at h
    simp only [isalpha, Bool.or_eq_false_iff, Bool.and_eq_false_iff, decide_eq_false_iff_not]
    omega
  · subst h; decide

theorem skipSpaces_run (last : Int) (ws : List Char) (c0 : Char) (tl : List Char)
    (hl : isspace last = true) (hws : ∀ c ∈ ws, isspace (chr c) = true)
    (h0 : isspace (chr c0) = false) :
    skipSpaces last (ws ++ c0 :: tl) = (chr c0, tl) := by
  induction ws generalizing last with
  | nil =>
    simp only [List.nil_append, skipSpaces, hl, if_true]
    exact skipSpaces_of_not_space _ _ h0
  | cons w ws ih =>
    simp only [List.cons_append, skipSpaces, hl, if_true]
    exact ih _ (hws w (by simp)) (fun c hc => hws c (by simp [hc]))

theorem numLoop_run (s : String) (last : Int) (r rest : List Char)
    (hrun : ∀ c ∈ r, isNumChar c = true) (hmax : ∀ c ∈ rest.head?, isNumChar c = false) :
    numLoop s last (r ++ rest)
      = (String.mk (s.data ++ toChar last :: r), (getchar rest).1, (getchar rest).2) := by
  induction r generalizing s last with
  | nil =>
    cases rest with
    | nil => simp [numLoop, getchar, String.push]
    | cons c cs =>
      have hc : isNumChar c = false := hmax c (by simp)
      simp only [List.nil_append, numLoop, numCond_eq, hc, Bool.false_eq_true, if_false, getchar]
      simp [String.push]
  | cons c cs ih =>
    have hc : isNumChar c = true := hrun c (by simp)
    simp only [List.cons_append, numLoop, numCond_eq, hc, if_true]
    have e := ih (s.push (toChar last)) (chr c) (fun d hd => hrun d (by simp [hd]))
    simp only [List.append_eq] at e ⊢
    rw [e]
    simp [String.push, toChar_chr]

/-- The number rule of `gettok` on a maximal run `r` of digits and `.`. -/
theorem gettok_numeric_run (st : State D) (ws r rest : List Char)
    (hl : isspace st.LastChar = true)
    (hin : st.input = ws ++ r ++ rest)
    (hws : ∀ c ∈ ws, isspace (chr c) = true)
    (hr : r ≠ [])
    (hrun : ∀ c ∈ r, isNumChar c = true)
    (hmax : ∀ c ∈ rest.head?, isNumChar c = false) :
    gettok strtod st
      = (tok_number, { st with NumVal := strtod (String.mk r),
                               LastChar := (getchar rest).1,
                               input := (getchar rest).2 }) := by
  cases r with
  | nil => exact absurd rfl hr
  | cons c0 r =>
    have h0 : isNumChar c0 = true := hrun c0 (by simp)
    have hsk : skipSpaces st.LastChar st.input = (chr c0, r ++ rest) := by
      rw [hin, List.append_assoc, List.cons_append]
      exact skipSpaces_run _ _ _ _ hl hws (isNumChar_not_space c0 h0)
    have hnum := numLoop_run "" (chr c0) r rest (fun d hd => hrun d (by simp [hd])) hmax
    simp only [gettok, gettokFuel, hsk, isNumChar_not_alpha c0 h0, numCond_eq, h0, if_true,
      Bool.false_eq_true, if_false, hnum, toChar_chr]
    simp

/-- C10: when, after whitespace, the unread input starts with a non-empty run
`r` of digits and `.` that is followed by the end of the input or by a
character that is neither, `gettok` returns `tok_number`, sets `NumVal` to
`strtod` of exactly `r`, and leaves `LastChar` at the character after `r`
(`EOF` at the end of the input); nothing else of the state changes. -/
theorem C10_numeric_literal (st : State D) (ws r rest : List Char)
    (hl : isspace st.LastChar = true)
    (hin : st.input = ws ++ r ++ rest)
    (hws : ∀ c ∈ ws, isspace (chr c) = true)
    (hr : r ≠ [])
    (hrun : ∀ c ∈ r, isNumChar c = true)
    (hmax : ∀ c ∈ rest.head?, isNumChar c = false) :
    gettok strtod st
      = (tok_number, { st with NumVal := strtod (String.mk r),
                               LastChar := (getchar rest).1,
                               input := (getchar rest).2 }) :=
  gettok_numeric_run strtod st ws r rest hl hin hws hr hrun hmax

theorem isalpha_not_space (c : Int) (h : isalpha c = true) : isspace c = false := by
  simp only [isalpha, Bool.or_eq_true, Bool.and_eq_true, decide_eq_true_eq] at h
  simp only [isspace, Bool.or_eq_false_iff, Bool.and_eq_false_iff, decide_eq_false_iff_not]
  omega

theorem identLoop_run (s : String) (r rest : List Char)
    (hrun : ∀ c ∈ r, isalnum (chr c) = true)
    (hmax : ∀ c ∈ rest.head?, isalnum (chr c) = false) :
    identLoop s (r ++ rest) = (String.mk (s.data ++ r), (getchar rest).1, (getchar rest).2) := by
  induction r generalizing s with
  | nil =>
    cases rest with
    | nil => simp [identLoop, getchar]
    | cons c cs =>
      have hc : isalnum (chr c) = false := hmax c (by simp)
      simp [identLoop, hc, getchar]
  | cons c cs ih =>
    have hc : isalnum (chr c) = true := hrun c (by simp)
    simp only [List.cons_append, identLoop, hc, if_true]
    have e := ih (s.push (toChar (chr c))) (fun d hd => hrun d (by simp [hd]))
    simp only [List.append_eq] at e ⊢
    rw [e]
    simp [String.push, toChar_chr]

/-- The identifier rule of `gettok` on a maximal alphanumeric run that starts
with the letter `c0`. -/
theorem gettok_identifier_run (st : State D) (ws : List Char) (c0 : Char) (r rest : List Char)
    (hl : isspace st.LastChar = true)
    (hin : st.input = ws ++ c0 :: r ++ rest)
    (hws : ∀ c ∈ ws, isspace (chr c) = true)
    (h0 : isalpha (chr c0) = true)
    (hrun : ∀ c ∈ r, isalnum (chr c) = true)
    (hmax : ∀ c ∈ rest.head?, isalnum (chr c) = false) :
    gettok strtod st
      = (if String.mk (c0 :: r) = "def" then tok_def
          else if String.mk (c0 :: r) = "extern" then tok_extern
          else tok_identifier,
         { st with IdentifierStr := String.mk (c0 :: r),
                   LastChar := (getchar rest).1,
                   input := (getchar rest).2 }) := by
  have hsk : skipSpaces st.LastChar st.input = (chr c0, r ++ rest) := by
    rw [hin, List.append_assoc, List.cons_append]
    exact skipSpaces_run _ _ _ _ hl hws (isalpha_not_space _ h0)
  have hid := identLoop_run (String.singleton (toChar (chr c0))) r rest hrun hmax
  have hd : (String.singleton (toChar (chr c0))).data ++ r = c0 :: r := by
    simp [String.singleton, String.push, toChar_chr]
  rw [hd] at hid
  simp only [gettok, gettokFuel, hsk, h0, if_true, hid]
  split
  · rfl
  · split <;> rfl

end LexerClaims

/-- C11 as stated fails: the reserved word `if` does not lex to `tok_if`; it is
an identifier token with text `if`. -/
theorem C11_if_is_an_identifier :
    (gettok id (State.fresh "" "if x".toList)).1 ≠ tok_if ∧
      (gettok id (State.fresh "" "if x".toList)).1 = tok_identifier ∧
      (gettok id (State.fresh "" "if x".toList)).2.IdentifierStr = "if" := by
  decide

/-- C12: `GetTokPrecedence` is the precedence table of the specification applied
to the current token: 10 for `<` and `>`, 20 for `+` and `-`, 40 for `*` and
`/`, and `-1` for every other token. (It returns a number only; the state is
not changed.) -/
theorem C12_precedence_table {D : Type} (st : State D) :
    GetTokPrecedence st = specPrecedence st.CurTok ∧
      (st.CurTok ∉ [chr '<', chr '>', chr '+', chr '-', chr '*', chr '/'] ↔
        GetTokPrecedence st = -1) := by
  have h1 : GetTokPrecedence st = specPrecedence st.CurTok := by
    simp only [GetTokPrecedence, specPrecedence, List.lookup]
    by_cases h1 : st.CurTok = chr '<'
    · rw [h1]; decide
    by_cases h2 : st.CurTok = chr '>'
    · rw [h2]; decide
    by_cases h3 : st.CurTok = chr '+'
    · rw [h3]; decide
    by_cases h4 : st.CurTok = chr '-'
    · rw [h4]; decide
    by_cases h5 : st.CurTok = chr '*'
    · rw [h5]; decide
    by_cases h6 : st.CurTok = chr '/'
    · rw [h6]; decide
    have e1 := beq_false_of_ne h1
    have e2 := beq_false_of_ne h2
    have e3 := beq_false_of_ne h3
    have e4 := beq_false_of_ne h4
    have e5 := beq_false_of_ne h5
    have e6 := beq_false_of_ne h6
    simp [h1, h2, h3, h4, h5, h6, e1, e2, e3, e4, e5, e6]
  refine ⟨h1, ?_⟩
  simp only [GetTokPrecedence, List.mem_cons, List.mem_singleton, List.not_mem_nil, or_false,
    not_or]
  constructor
  · rintro ⟨n1, n2, n3, n4, n5, n6⟩
    simp [n1, n2, n3, n4, n5, n6]
  · intro h
    split at h
    · exact absurd h (by decide)
    · split at h
      · exact absurd h (by decide)
      · split at h
        · exact absurd h (by decide)
        · rename_i a b c
          simp only [not_or] at a b c
          exact ⟨a.1, a.2, b.1, b.2, c.1, c.2⟩

/-- The text ` 1.2.3+x` lexes to one number token for `1.2.3`, with `+` the
lookahead character. -/
theorem C10_numeric_literal_witness :
    gettok id (State.fresh "" " 1.2.3+x".toList)
      = (tok_number, { State.fresh "" " 1.2.3+x".toList with
          NumVal := "1.2.3", LastChar := chr '+', input := ['x'] }) :=
  C10_numeric_literal id (State.fresh "" " 1.2.3+x".toList) [' '] "1.2.3".toList "+x".toList
    (by decide) rfl (by decide) (by decide) (by decide) (by decide)

/-- A text of blanks, two comments and line ends lexes to `tok_eof`. -/
theorem C9_whitespace_and_comments_lex_to_eof_witness :
    onlyWsComments false " # one\n\t#two\r\n  # three".toList = true ∧
      (gettok id (State.fresh "" " # one\n\t#two\r\n  # three".toList)).1 = tok_eof ∧
      (gettok id (State.fresh "" " # one\n\t#two\r\n  # three".toList)).2.input = [] :=
  ⟨by decide, C9_whitespace_and_comments_lex_to_eof id "" _ (by decide)⟩

/-! ## The lexer does not depend on stale registers -/

section LexerAgreement

variable {D : Type} (strtod : String → D)

theorem chr_ge (c : Char) : EOF ≤ chr c := by
  simp only [chr, EOF]; omega

theorem getchar_ge (inp : List Char) : EOF ≤ (getchar inp).1 := by
  cases inp with
  | nil => simp [getchar]
  | cons c cs => exact chr_ge c

theorem skipSpaces_ge (last : Int) (inp : List Char) (h : EOF ≤ last) :
    EOF ≤ (skipSpaces last inp).1 := by
  induction inp generalizing last with
  | nil => simp only [skipSpaces]; split <;> simp [h]
  | cons c cs ih =>
    simp only [skipSpaces]
    split
    · exact ih _ (chr_ge c)
    · exact h

theorem identLoop_ge (s : String) (inp : List Char) : EOF ≤ (identLoop s inp).2.1 := by
  induction inp generalizing s with
  | nil => simp [identLoop]
  | cons c cs ih =>
    simp only [identLoop]
    split
    · exact ih _
    · exact chr_ge c

theorem numLoop_ge (s : String) (last : Int) (inp : List Char) :
    EOF ≤ (numLoop s last inp).2.1 := by
  induction inp generalizing s last with
  | nil => simp [numLoop]
  | cons c cs ih =>
    simp only [numLoop]
    split
    · exact ih _ _
    · exact chr_ge c

theorem commentLoop_ge (inp : List Char) : EOF ≤ (commentLoop inp).1 := by
  induction inp with
  | nil => simp [commentLoop]
  | cons c cs ih =>
    simp only [commentLoop]
    split
    · exact ih
    · exact chr_ge c

theorem gettokChar_lexSim (a b : State D) (last : Int) (inp : List Char) (h : EOF ≤ last) :
    lexSim a b (gettokChar a last inp) (gettokChar b last inp) := by
  simp only [gettokChar]
  split
  · refine ⟨rfl, rfl, rfl, h, rfl, rfl, ?_, ?_⟩ <;> intro e <;>
    simp [gettokFuel, tok_eof, tok_def, tok_extern, tok_identifier, tok_number] at e
  · rename_i hne
    refine ⟨rfl, rfl, rfl, getchar_ge inp, rfl, rfl, ?_, ?_⟩ <;> intro e <;>
      simp only [EOF, tok_identifier, tok_number] at * <;> omega

/-- One unfolding of `gettok` from two states whose `LastChar` and input skip
to the same place. -/
theorem gettokFuel_lexSim_step (n : Nat) (a b : State D)
    (hsk : skipSpaces a.LastChar a.input = skipSpaces b.LastChar b.input)
    (hge : EOF ≤ (skipSpaces b.LastChar b.input).1)
    (ih : ∀ a1 b1 : State D, a1.LastChar = b1.LastChar → a1.input = b1.input →
      EOF ≤ a1.LastChar → lexSim a1 b1 (gettokFuel strtod n a1) (gettokFuel strtod n b1)) :
    lexSim a b (gettokFuel strtod (n + 1) a) (gettokFuel strtod (n + 1) b) := by
  simp only [gettokFuel]
  rw [hsk]
  generalize skipSpaces b.LastChar b.input = sk at hge
  split
  · split
    · refine ⟨rfl, rfl, rfl, identLoop_ge _ _, rfl, rfl, ?_, ?_⟩ <;> intro e <;>
        simp [tok_eof, tok_def, tok_extern, tok_identifier, tok_number] at e
    · split
      · refine ⟨rfl, rfl, rfl, identLoop_ge _ _, rfl, rfl, ?_, ?_⟩ <;> intro e <;>
          simp [tok_eof, tok_def, tok_extern, tok_identifier, tok_number] at e
      · refine ⟨rfl, rfl, rfl, identLoop_ge _ _, rfl, rfl, ?_, ?_⟩
        · intro _; rfl
        · intro e; simp [tok_eof, tok_def, tok_extern, tok_identifier, tok_number] at e
  · split
    · refine ⟨rfl, rfl, rfl, numLoop_ge _ _ _, rfl, rfl, ?_, ?_⟩
      · intro e; simp [tok_eof, tok_def, tok_extern, tok_identifier, tok_number] at e
      · intro _; rfl
    · split
      · split
        · exact ih _ _ rfl rfl (commentLoop_ge _)
        · exact gettokChar_lexSim a b _ _ (commentLoop_ge _)
      · exact gettokChar_lexSim a b _ _ hge

theorem gettokFuel_lexSim (n : Nat) (a b : State D) (hl : a.LastChar = b.LastChar)
    (hi : a.input = b.input) (hge : EOF ≤ a.LastChar) :
    lexSim a b (gettokFuel strtod n a) (gettokFuel strtod n b) := by
  induction n generalizing a b with
  | zero =>
    refine ⟨rfl, hi, hl, hge, rfl, rfl, ?_, ?_⟩ <;> intro e <;>
    simp [gettokFuel, tok_eof, tok_def, tok_extern, tok_identifier, tok_number] at e
  | succ n ih =>
    apply gettokFuel_lexSim_step strtod n a b (by rw [hl, hi])
    · rw [← hl]; exact skipSpaces_ge _ _ hge
    · intro a1 b1 h1 h2 h3
      exact ih a1 b1 h1 h2 h3

theorem skipSpaces_of_spaces (l1 l2 : Int) (inp : List Char) (h1 : isspace l1 = true)
    (h2 : isspace l2 = true) : skipSpaces l1 inp = skipSpaces l2 inp := by
  cases inp <;> simp [skipSpaces, h1, h2]

/-- The function `gettok` from two states with the same unread input whose `LastChar` is
whitespace in both. -/
theorem gettok_lexSim_of_spaces (a b : State D) (hi : a.input = b.input)
    (h1 : isspace a.LastChar = true) (h2 : isspace b.LastChar = true) :
    lexSim a b (gettok strtod a) (gettok strtod b) := by
  simp only [gettok, hi]
  apply gettokFuel_lexSim_step strtod _ a b
  · rw [hi]; exact skipSpaces_of_spaces _ _ _ h1 h2
  · apply skipSpaces_ge
    simp only [isspace, Bool.or_eq_true, Bool.and_eq_true, decide_eq_true_eq] at h2
    simp only [EOF]; omega
  · intro a1 b1 e1 e2 e3
    exact gettokFuel_lexSim strtod _ a1 b1 e1 e2 e3

theorem getNextToken_sim_of_lexSim (pa pb : List String) (a b : State D)
    (h : lexSim a b (gettok strtod a) (gettok strtod b))
    (herr : ∃ y, a.err = pa ++ y ∧ b.err = pb ++ y) :
    sim pa pb (getNextToken strtod a) (getNextToken strtod b) := by
  obtain ⟨h1, h2, h3, h4, h5, h6, h7, h8⟩ := h
  refine ⟨h2, h3, h4, h1, h7, h8, ?_⟩
  obtain ⟨y, e1, e2⟩ := herr
  exact ⟨y, h5.trans e1, h6.trans e2⟩

theorem getNextToken_sim (pa pb : List String) (a b : State D) (h : sim pa pb a b) :
    sim pa pb (getNextToken strtod a) (getNextToken strtod b) := by
  obtain ⟨h1, h2, h3, _, _, _, h7⟩ := h
  apply getNextToken_sim_of_lexSim strtod pa pb a b _ h7
  simp only [gettok, h1]
  exact gettokFuel_lexSim strtod _ a b h2 h1 h3

theorem LogError_sim (pa pb : List String) (msg : String) (a b : State D) (h : sim pa pb a b) :
    sim pa pb (LogError msg a) (LogError msg b) := by
  obtain ⟨h1, h2, h3, h4, h5, h6, y, e1, e2⟩ := h
  exact ⟨h1, h2, h3, h4, h5, h6, y ++ ["LogError: " ++ msg ++ "\n"],
    by simp [LogError, e1], by simp [LogError, e2]⟩

theorem eprint_sim (pa pb : List String) (msg : String) (a b : State D) (h : sim pa pb a b) :
    sim pa pb (eprint msg a) (eprint msg b) := by
  obtain ⟨h1, h2, h3, h4, h5, h6, y, e1, e2⟩ := h
  exact ⟨h1, h2, h3, h4, h5, h6, y ++ [msg], by simp [eprint, e1], by simp [eprint, e2]⟩

end LexerAgreement

/-! ## The parser does not depend on stale registers -/

section ParserAgreement

variable {D : Type} (strtod : String → D)

theorem sim_CurTok {pa pb : List String} {a b : State D} (h : sim pa pb a b) :
    a.CurTok = b.CurTok := h.2.2.2.1

theorem sim_GetTokPrecedence {pa pb : List String} {a b : State D} (h : sim pa pb a b) :
    GetTokPrecedence a = GetTokPrecedence b := by
  simp only [GetTokPrecedence, sim_CurTok h]

theorem resSim_cases {α : Type} {pa pb : List String} {ra rb : Res α D}
    (h : resSim pa pb ra rb) :
    (ra = none ∧ rb = none) ∨
      (∃ a1 b1, ra = some (none, a1) ∧ rb = some (none, b1) ∧ sim pa pb a1 b1) ∨
      (∃ x a1 b1, ra = some (some x, a1) ∧ rb = some (some x, b1) ∧ sim pa pb a1 b1) := by
  rcases ra with _ | ⟨x, a1⟩ <;> rcases rb with _ | ⟨y, b1⟩
  · exact Or.inl ⟨rfl, rfl⟩
  · exact absurd h (by simp [resSim])
  · exact absurd h (by simp [resSim])
  · obtain ⟨e, hs⟩ := h
    subst e
    cases x with
    | none => exact Or.inr (Or.inl ⟨a1, b1, rfl, rfl, hs⟩)
    | some x => exact Or.inr (Or.inr ⟨x, a1, b1, rfl, rfl, hs⟩)

theorem ParseNumberExpr_sim (pa pb : List String) (a b : State D) (h : sim pa pb a b)
    (hn : a.CurTok = tok_number) :
    resSim pa pb (some (ParseNumberExpr strtod a)) (some (ParseNumberExpr strtod b)) := by
  refine ⟨?_, getNextToken_sim strtod pa pb a b h⟩
  simp only [h.2.2.2.2.2.1 hn]

/-- The statement proved by induction on the fuel for the six mutually
recursive parsing functions at once. -/
theorem parse_sim (pa pb : List String) (fuel : Nat) :
    (∀ a b : State D, sim pa pb a b →
      resSim pa pb (ParseParenExpr strtod fuel a) (ParseParenExpr strtod fuel b)) ∧
    (∀ (Args : List (ExprAST D)) (a b : State D), sim pa pb a b →
      resSim pa pb (ParseIdentifierExpr_args strtod fuel Args a)
        (ParseIdentifierExpr_args strtod fuel Args b)) ∧
    (∀ a b : State D, sim pa pb a b → a.CurTok = tok_identifier →
      resSim pa pb (ParseIdentifierExpr strtod fuel a) (ParseIdentifierExpr strtod fuel b)) ∧
    (∀ a b : State D, sim pa pb a b →
      resSim pa pb (ParsePrimary strtod fuel a) (ParsePrimary strtod fuel b)) ∧
    (∀ a b : State D, sim pa pb a b →
      resSim pa pb (ParseExpression strtod fuel a) (ParseExpression strtod fuel b)) ∧
    (∀ (p : Int) (LHS : ExprAST D) (a b : State D), sim pa pb a b →
      resSim pa pb (ParseBinOpRHS strtod fuel p LHS a) (ParseBinOpRHS strtod fuel p LHS b)) := by
  induction fuel with
  | zero =>
    refine ⟨?_, ?_, ?_, ?_, ?_, ?_⟩ <;> intros <;>
      simp [ParseParenExpr, ParseIdentifierExpr_args, ParseIdentifierExpr, ParsePrimary,
        ParseExpression, ParseBinOpRHS, resSim]
  | succ fuel ih =>
    obtain ⟨ihParen, ihArgs, ihIdent, ihPrimary, ihExpr, ihBin⟩ := ih
    refine ⟨?_, ?_, ?_, ?_, ?_, ?_⟩
    · intro a b hs
      simp only [ParseParenExpr]
      rcases resSim_cases (ihExpr _ _ (getNextToken_sim strtod pa pb a b hs)) with
        ⟨e1, e2⟩ | ⟨a1, b1, e1, e2, h1⟩ | ⟨x, a1, b1, e1, e2, h1⟩ <;> simp only [e1, e2]
      · trivial
      · exact ⟨rfl, h1⟩
      · rw [sim_CurTok h1]
        split
        · exact ⟨rfl, getNextToken_sim strtod pa pb a1 b1 h1⟩
        · exact ⟨rfl, LogError_sim pa pb _ a1 b1 h1⟩
    · intro Args a b hs
      simp only [ParseIdentifierExpr_args]
      rcases resSim_cases (ihExpr _ _ hs) with
        ⟨e1, e2⟩ | ⟨a1, b1, e1, e2, h1⟩ | ⟨x, a1, b1, e1, e2, h1⟩ <;> simp only [e1, e2]
      · trivial
      · exact ⟨rfl, h1⟩
      · rw [sim_CurTok h1]
        split
        · exact ⟨rfl, h1⟩
        · split
          · exact ⟨rfl, LogError_sim pa pb _ a1 b1 h1⟩
          · exact ihArgs _ _ _ (getNextToken_sim strtod pa pb a1 b1 h1)
    · intro a b hs hid
      simp only [ParseIdentifierExpr]
      have h1 := getNextToken_sim strtod pa pb a b hs
      have h2 := getNextToken_sim strtod pa pb _ _ h1
      rw [sim_CurTok h1, sim_CurTok h2, hs.2.2.2.2.1 hid]
      split
      · exact ⟨rfl, h1⟩
      · split
        · rcases resSim_cases (ihArgs [] _ _ h2) with
            ⟨e1, e2⟩ | ⟨a1, b1, e1, e2, h3⟩ | ⟨x, a1, b1, e1, e2, h3⟩ <;> simp only [e1, e2]
          · trivial
          · exact ⟨rfl, h3⟩
          · exact ⟨rfl, getNextToken_sim strtod pa pb a1 b1 h3⟩
        · exact ⟨rfl, getNextToken_sim strtod pa pb _ _ h2⟩
    · intro a b hs
      simp only [ParsePrimary]
      rw [sim_CurTok hs]
      split
      · rename_i hid
        exact ihIdent a b hs ((sim_CurTok hs).trans hid)
      · split
        · rename_i hn
          exact ParseNumberExpr_sim strtod pa pb a b hs ((sim_CurTok hs).trans hn)
        · split
          · exact ihParen a b hs
          · exact ⟨rfl, LogError_sim pa pb _ a b hs⟩
    · intro a b hs
      simp only [ParseExpression]
      rcases resSim_cases (ihPrimary _ _ hs) with
        ⟨e1, e2⟩ | ⟨a1, b1, e1, e2, h1⟩ | ⟨x, a1, b1, e1, e2, h1⟩ <;> simp only [e1, e2]
      · trivial
      · exact ⟨rfl, h1⟩
      · exact ihBin 0 x a1 b1 h1
    · intro p LHS a b hs
      simp only [ParseBinOpRHS]
      rw [sim_GetTokPrecedence hs]
      split
      · exact ⟨rfl, hs⟩
      · rcases resSim_cases (ihPrimary _ _ (getNextToken_sim strtod pa pb a b hs)) with
          ⟨e1, e2⟩ | ⟨a1, b1, e1, e2, h1⟩ | ⟨x, a1, b1, e1, e2, h1⟩ <;> simp only [e1, e2]
        · trivial
        · exact ihBin p LHS a1 b1 h1
        · rw [sim_GetTokPrecedence h1]
          simp only [Option.isNone_none, if_true]
          split
          · exact ⟨rfl, h1⟩
          · exact ⟨rfl, h1⟩

theorem ParsePrototype_args_sim (pa pb : List String) (fuel : Nat) (acc : List String)
    (a b : State D) (hs : sim pa pb a b) :
    (ParsePrototype_args strtod fuel acc a = none ∧
        ParsePrototype_args strtod fuel acc b = none) ∨
      ∃ l a1 b1, ParsePrototype_args strtod fuel acc a = some (l, a1) ∧
        ParsePrototype_args strtod fuel acc b = some (l, b1) ∧ sim pa pb a1 b1 := by
  induction fuel generalizing acc a b with
  | zero => left; exact ⟨rfl, rfl⟩
  | succ fuel ih =>
    simp only [ParsePrototype_args]
    have h1 := getNextToken_sim strtod pa pb a b hs
    rw [sim_CurTok h1]
    split
    · rename_i hid
      rw [h1.2.2.2.2.1 ((sim_CurTok h1).trans hid)]
      exact ih _ _ _ h1
    · exact Or.inr ⟨acc, _, _, rfl, rfl, h1⟩

theorem ParsePrototype_sim (pa pb : List String) (fuel : Nat) (a b : State D)
    (hs : sim pa pb a b) :
    resSim pa pb (ParsePrototype strtod fuel a) (ParsePrototype strtod fuel b) := by
  simp only [ParsePrototype]
  have h1 := getNextToken_sim strtod pa pb a b hs
  rw [sim_CurTok hs, sim_CurTok h1]
  split
  · exact ⟨rfl, LogError_sim pa pb _ a b hs⟩
  · rename_i hid
    have hid2 : a.CurTok = tok_identifier := by
      rw [sim_CurTok hs]; exact not_not.mp hid
    rw [hs.2.2.2.2.1 hid2]
    split
    · exact ⟨rfl, LogError_sim pa pb _ _ _ h1⟩
    · rcases ParsePrototype_args_sim strtod pa pb fuel [] _ _ h1 with
        ⟨e1, e2⟩ | ⟨l, a1, b1, e1, e2, h2⟩ <;> simp only [e1, e2]
      · trivial
      · rw [sim_CurTok h2]
        split
        · exact ⟨rfl, LogError_sim pa pb _ _ _ h2⟩
        · exact ⟨rfl, getNextToken_sim strtod pa pb _ _ h2⟩

theorem ParseExpression_sim (pa pb : List String) (fuel : Nat) (a b : State D)
    (hs : sim pa pb a b) :
    resSim pa pb (ParseExpression strtod fuel a) (ParseExpression strtod fuel b) :=
  (parse_sim strtod pa pb fuel).2.2.2.2.1 a b hs

theorem ParseDefinition_sim (pa pb : List String) (fuel : Nat) (a b : State D)
    (hs : sim pa pb a b) :
    resSim pa pb (ParseDefinition strtod fuel a) (ParseDefinition strtod fuel b) := by
  simp only [ParseDefinition]
  rcases resSim_cases
      (ParsePrototype_sim strtod pa pb fuel _ _ (getNextToken_sim strtod pa pb a b hs)) with
    ⟨e1, e2⟩ | ⟨a1, b1, e1, e2, h1⟩ | ⟨x, a1, b1, e1, e2, h1⟩ <;> simp only [e1, e2]
  · trivial
  · exact ⟨rfl, h1⟩
  · rcases resSim_cases (ParseExpression_sim strtod pa pb fuel a1 b1 h1) with
      ⟨e3, e4⟩ | ⟨a2, b2, e3, e4, h2⟩ | ⟨y, a2, b2, e3, e4, h2⟩ <;> simp only [e3, e4]
    · trivial
    · exact ⟨rfl, h2⟩
    · exact ⟨rfl, h2⟩

theorem ParseExtern_sim (pa pb : List String) (fuel : Nat) (a b : State D)
    (hs : sim pa pb a b) :
    resSim pa pb (ParseExtern strtod fuel a) (ParseExtern strtod fuel b) :=
  ParsePrototype_sim strtod pa pb fuel _ _ (getNextToken_sim strtod pa pb a b hs)

theorem ParseTopLevelExpr_sim (pa pb : List String) (fuel : Nat) (a b : State D)
    (hs : sim pa pb a b) :
    resSim pa pb (ParseTopLevelExpr strtod fuel a) (ParseTopLevelExpr strtod fuel b) := by
  simp only [ParseTopLevelExpr]
  rcases resSim_cases (ParseExpression_sim strtod pa pb fuel a b hs) with
    ⟨e3, e4⟩ | ⟨a2, b2, e3, e4, h2⟩ | ⟨y, a2, b2, e3, e4, h2⟩ <;> simp only [e3, e4]
  · trivial
  · exact ⟨rfl, h2⟩
  · exact ⟨rfl, h2⟩

theorem HandleDefinition_sim (pa pb : List String) (fuel : Nat) (a b : State D)
    (hs : sim pa pb a b) :
    optSim pa pb (HandleDefinition strtod fuel a) (HandleDefinition strtod fuel b) := by
  simp only [HandleDefinition]
  rcases resSim_cases (ParseDefinition_sim strtod pa pb fuel a b hs) with
    ⟨e3, e4⟩ | ⟨a2, b2, e3, e4, h2⟩ | ⟨y, a2, b2, e3, e4, h2⟩ <;> simp only [e3, e4]
  · trivial
  · exact getNextToken_sim strtod pa pb _ _ h2
  · exact eprint_sim pa pb _ _ _ h2

theorem HandleExtern_sim (pa pb : List String) (fuel : Nat) (a b : State D)
    (hs : sim pa pb a b) :
    optSim pa pb (HandleExtern strtod fuel a) (HandleExtern strtod fuel b) := by
  simp only [HandleExtern]
  rcases resSim_cases (ParseExtern_sim strtod pa pb fuel a b hs) with
    ⟨e3, e4⟩ | ⟨a2, b2, e3, e4, h2⟩ | ⟨y, a2, b2, e3, e4, h2⟩ <;> simp only [e3, e4]
  · trivial
  · exact getNextToken_sim strtod pa pb _ _ h2
  · exact eprint_sim pa pb _ _ _ h2

theorem HandleTopLevelExpression_sim (pa pb : List String) (fuel : Nat) (a b : State D)
    (hs : sim pa pb a b) :
    optSim pa pb (HandleTopLevelExpression strtod fuel a)
      (HandleTopLevelExpression strtod fuel b) := by
  simp only [HandleTopLevelExpression]
  rcases resSim_cases (ParseTopLevelExpr_sim strtod pa pb fuel a b hs) with
    ⟨e3, e4⟩ | ⟨a2, b2, e3, e4, h2⟩ | ⟨y, a2, b2, e3, e4, h2⟩ <;> simp only [e3, e4]
  · trivial
  · exact getNextToken_sim strtod pa pb _ _ h2
  · exact eprint_sim pa pb _ _ _ h2

theorem optSim_bind (pa pb : List String) (x y : Option (State D))
    (f : State D → Option (State D)) (h : optSim pa pb x y)
    (hf : ∀ a b, sim pa pb a b → optSim pa pb (f a) (f b)) :
    optSim pa pb (x.bind f) (y.bind f) := by
  rcases x with _ | a <;> rcases y with _ | b
  · trivial
  · exact absurd h (by simp [optSim])
  · exact absurd h (by simp [optSim])
  · exact hf a b h

/-- From agreeing states `MainLoop` runs in step: with the same fuel both runs
end, or neither does, and they end in agreeing states. -/
theorem MainLoop_sim (pa pb : List String) (fuel : Nat) (a b : State D)
    (hs : sim pa pb a b) :
    optSim pa pb (MainLoop strtod fuel a) (MainLoop strtod fuel b) := by
  induction fuel generalizing a b with
  | zero => trivial
  | succ fuel ih =>
    simp only [MainLoop]
    have h0 := eprint_sim pa pb "ready> " a b hs
    rw [sim_CurTok h0]
    split
    · exact h0
    · split
      · exact ih _ _ (getNextToken_sim strtod pa pb _ _ h0)
      · split
        · exact optSim_bind pa pb _ _ _ (HandleDefinition_sim strtod pa pb fuel _ _ h0) ih
        · split
          · exact optSim_bind pa pb _ _ _ (HandleExtern_sim strtod pa pb fuel _ _ h0) ih
          · exact optSim_bind pa pb _ _ _
              (HandleTopLevelExpression_sim strtod pa pb fuel _ _ h0) ih

end ParserAgreement

/-! ## Recovery after a malformed definition -/

section Recovery

variable {D : Type} (strtod : String → D)

theorem isspace_not_isNumChar (c : Char) (h : isspace (chr c) = true) : isNumChar c = false := by
  cases hn : isNumChar c with
  | false => rfl
  | true => rw [isNumChar_not_space c hn] at h; exact absurd h (by decide)

/-- Lexing the `1` of `def f( 1`: the number token, with the whitespace
character after it as lookahead. -/
theorem getNextToken_offending_number (zero : D) (w : Char) (rest : List Char)
    (e : List String) (hw : isspace (chr w) = true) :
    getNextToken strtod
        { input := '1' :: w :: rest, LastChar := chr ' ', IdentifierStr := "f",
          NumVal := zero, CurTok := chr '(', err := e }
      = { input := rest, LastChar := chr w, IdentifierStr := "f",
          NumVal := strtod "1", CurTok := tok_number, err := e } := by
  have h := gettok_numeric_run strtod
    { input := '1' :: w :: rest, LastChar := chr ' ', IdentifierStr := "f",
      NumVal := zero, CurTok := chr '(', err := e } [] ['1'] (w :: rest)
    (show isspace (chr ' ') = true by decide) rfl (by simp) (by simp)
    (by intro c hc; simp only [List.mem_singleton] at hc; subst hc; decide)
    (by simpa using isspace_not_isNumChar w hw)
  simp only [getNextToken, h, getchar]

/-- The parse of `def f( 1`: `ParsePrototype` meets the number where it
expects `)` or a parameter name, logs the error and returns `nullptr`, which
`ParseDefinition` passes on; the number is still the current token. -/
theorem ParseDefinition_malformed (zero : D) (w : Char) (rest : List Char) (fuel : Nat)
    (hw : isspace (chr w) = true) :
    ParseDefinition strtod (fuel + 1)
        (eprint "ready> " (getNextToken strtod
          (eprint "ready> " (State.fresh zero ("def f( 1".toList ++ w :: rest)))))
      = some (none,
          { input := rest, LastChar := chr w, IdentifierStr := "f", NumVal := strtod "1",
            CurTok := tok_number,
            err := ["ready> ", "ready> ", "LogError: Expected ')' in prototype\n"] }) := by
  have E0 : eprint "ready> " (State.fresh zero ("def f( 1".toList ++ w :: rest))
      = { input := 'd' :: 'e' :: 'f' :: ' ' :: 'f' :: '(' :: ' ' :: '1' :: w :: rest,
          LastChar := chr ' ', IdentifierStr := "", NumVal := zero, CurTok := 0,
          err := ["ready> "] } := rfl
  have Ed : getNextToken strtod
        { input := 'd' :: 'e' :: 'f' :: ' ' :: 'f' :: '(' :: ' ' :: '1' :: w :: rest,
          LastChar := chr ' ', IdentifierStr := "", NumVal := zero, CurTok := 0,
          err := ["ready> "] }
      = { input := 'f' :: '(' :: ' ' :: '1' :: w :: rest, LastChar := chr ' ',
          IdentifierStr := "def", NumVal := zero, CurTok := tok_def,
          err := ["ready> "] } := rfl
  have E1 : eprint "ready> "
        { input := 'f' :: '(' :: ' ' :: '1' :: w :: rest, LastChar := chr ' ',
          IdentifierStr := "def", NumVal := zero, CurTok := tok_def,
          err := ["ready> "] }
      = { input := 'f' :: '(' :: ' ' :: '1' :: w :: rest, LastChar := chr ' ',
          IdentifierStr := "def", NumVal := zero, CurTok := tok_def,
          err := ["ready> ", "ready> "] } := rfl
  have Ef : getNextToken strtod
        { input := 'f' :: '(' :: ' ' :: '1' :: w :: rest, LastChar := chr ' ',
          IdentifierStr := "def", NumVal := zero, CurTok := tok_def,
          err := ["ready> ", "ready> "] }
      = { input := ' ' :: '1' :: w :: rest, LastChar := chr '(',
          IdentifierStr := "f", NumVal := zero, CurTok := tok_identifier,
          err := ["ready> ", "ready> "] } := rfl
  have Ep : getNextToken strtod
        { input := ' ' :: '1' :: w :: rest, LastChar := chr '(',
          IdentifierStr := "f", NumVal := zero, CurTok := tok_identifier,
          err := ["ready> ", "ready> "] }
      = { input := '1' :: w :: rest, LastChar := chr ' ',
          IdentifierStr := "f", NumVal := zero, CurTok := chr '(',
          err := ["ready> ", "ready> "] } := rfl
  have En := getNextToken_offending_number strtod zero w rest ["ready> ", "ready> "] hw
  have d1 : tok_number ≠ tok_identifier := by decide
  have d2 : tok_number ≠ chr ')' := by decide
  rw [E0, Ed, E1]
  rw [ParseDefinition, Ef, ParsePrototype]
  simp only [ne_eq, not_true_eq_false, if_false, Ep, ParsePrototype_args, En, d1, d2,
    not_false_eq_true, if_true]
  simp [LogError]

/-- C8: on an input that starts with `def f( 1` followed by a whitespace
character and any text `rest`, (1) `ParseDefinition`, entered as `MainLoop`
enters it, logs `Expected ')' in prototype` and returns `nullptr`, the number
being the current token; (2) `HandleDefinition` then discards exactly that one
token; (3) the driver goes on, and from there it runs in step with `main` on
`rest` alone: with one more unit of fuel for the failed definition both runs
end or neither does, they end with the same current token, lookahead and
unread input, and what they wrote to `stderr` is the same after the three
lines of the failed definition (resp. the first prompt). -/
theorem C8_malformed_definition_recovery (zero : D) (w : Char) (rest : List Char) (fuel : Nat)
    (hw : isspace (chr w) = true) :
    ParseDefinition strtod (fuel + 1)
        (eprint "ready> " (getNextToken strtod
          (eprint "ready> " (State.fresh zero ("def f( 1".toList ++ w :: rest)))))
      = some (none,
          { input := rest, LastChar := chr w, IdentifierStr := "f", NumVal := strtod "1",
            CurTok := tok_number,
            err := ["ready> ", "ready> ", "LogError: Expected ')' in prototype\n"] }) ∧
    HandleDefinition strtod (fuel + 1)
        (eprint "ready> " (getNextToken strtod
          (eprint "ready> " (State.fresh zero ("def f( 1".toList ++ w :: rest)))))
      = some (getNextToken strtod
          { input := rest, LastChar := chr w, IdentifierStr := "f", NumVal := strtod "1",
            CurTok := tok_number,
            err := ["ready> ", "ready> ", "LogError: Expected ')' in prototype\n"] }) ∧
    optSim ["ready> ", "ready> ", "LogError: Expected ')' in prototype\n"] ["ready> "]
      (main strtod (fuel + 2) (State.fresh zero ("def f( 1".toList ++ w :: rest)))
      (main strtod (fuel + 1) (State.fresh zero rest)) := by
  have hPD := ParseDefinition_malformed strtod zero w rest fuel hw
  have hHD : HandleDefinition strtod (fuel + 1)
        (eprint "ready> " (getNextToken strtod
          (eprint "ready> " (State.fresh zero ("def f( 1".toList ++ w :: rest)))))
      = some (getNextToken strtod
          { input := rest, LastChar := chr w, IdentifierStr := "f", NumVal := strtod "1",
            CurTok := tok_number,
            err := ["ready> ", "ready> ", "LogError: Expected ')' in prototype\n"] }) := by
    simp only [HandleDefinition, hPD]
  refine ⟨hPD, hHD, ?_⟩
  have hdef : (eprint "ready> " (getNextToken strtod
      (eprint "ready> " (State.fresh zero ("def f( 1".toList ++ w :: rest))))).CurTok
      = tok_def := rfl
  have hstep : main strtod (fuel + 2) (State.fresh zero ("def f( 1".toList ++ w :: rest))
      = MainLoop strtod (fuel + 1) (getNextToken strtod
          { input := rest, LastChar := chr w, IdentifierStr := "f", NumVal := strtod "1",
            CurTok := tok_number,
            err := ["ready> ", "ready> ", "LogError: Expected ')' in prototype\n"] }) := by
    show MainLoop strtod (fuel + 1 + 1) _ = _
    rw [MainLoop]
    simp only [hdef, hHD]
    simp [tok_def, tok_eof, chr]
  rw [hstep]
  apply MainLoop_sim
  apply getNextToken_sim_of_lexSim
  · exact gettok_lexSim_of_spaces strtod _ _ rfl hw (show isspace (chr ' ') = true by decide)
  · exact ⟨[], rfl, rfl⟩

end Recovery

/-- On `def f( 1 extern sin(x) 4` the failed definition is reported and the
driver runs on as it does on `extern sin(x) 4` alone. -/
theorem C8_malformed_definition_recovery_witness :
    isspace (chr ' ') = true ∧
    optSim ["ready> ", "ready> ", "LogError: Expected ')' in prototype\n"] ["ready> "]
      (main id 7 (State.fresh "" ("def f( 1".toList ++ ' ' :: "extern sin(x) 4".toList)))
      (main id 6 (State.fresh "" "extern sin(x) 4".toList)) :=
  ⟨by decide,
    (C8_malformed_definition_recovery id "" ' ' "extern sin(x) 4".toList 5 (by decide)).2.2⟩

/-! ## Expressions with binary operators -/

/-- C1: on the text `1+2*3` `ParseExpression` does not return
`Binary('+', Number(1), Binary('*', Number(2), Number(3)))`: once the primary
`2` after `+` is parsed and the next operator `*` binds tighter, the
`BinaryExprAST` is built, the moved-from `RHS` tests null and `ParseBinOpRHS`
returns `nullptr`, with `*` still the current token and nothing logged. -/
theorem C1_precedence_text_yields_nullptr (fuel : Nat) :
    (ParseExpression id (fuel + 3) (start "1+2*3")).map
        (fun r => (r.1.isSome, r.2.CurTok, r.2.err))
      = some (false, chr '*', []) :=
  rfl

/-- C2: on the text `1-2-3` `ParseExpression` does not return
`Binary('-', Binary('-', Number(1), Number(2)), Number(3))`: after the primary
`2` the next operator `-` does not bind tighter than the first, and that branch
of `ParseBinOpRHS` returns `nullptr`, nothing logged. -/
theorem C2_left_assoc_text_yields_nullptr (fuel : Nat) :
    (ParseExpression id (fuel + 3) (start "1-2-3")).map
        (fun r => (r.1.isSome, r.2.CurTok, r.2.err))
      = some (false, chr '-', []) :=
  rfl

/-- C3: on the text `(1+2)*3` `ParseExpression` does not return
`Binary('*', Binary('+', Number(1), Number(2)), Number(3))`: the inner
expression `1+2` already yields `nullptr` (the token after `2` is `)`, which
does not bind tighter than `+`), and `ParseParenExpr` passes it on. -/
theorem C3_paren_text_yields_nullptr (fuel : Nat) :
    (ParseExpression id (fuel + 6) (start "(1+2)*3")).map
        (fun r => (r.1.isSome, r.2.CurTok, r.2.err))
      = some (false, chr ')', []) :=
  rfl

/-- C4: on the text `(1)` `ParsePrimary` does not return `Number(1)`: with `)`
the current token after the inner expression, `ParseParenExpr` logs
`expect ')'` and returns `nullptr` without consuming the `)`; and on `(1;`,
where the token after the inner expression is not `)`, it returns `Number(1)`
and consumes the `;`. -/
theorem C4_paren_requires_no_closing (fuel : Nat) :
    (ParsePrimary id (fuel + 5) (start "(1)")).map
        (fun r => (r.1.isSome, r.2.CurTok, r.2.err))
      = some (false, chr ')', ["LogError: expect ')'\n"]) ∧
    (ParsePrimary id (fuel + 5) (start "(1;")).map
        (fun r => (r.1.isSome, r.2.CurTok, r.2.err))
      = some (true, tok_eof, []) :=
  ⟨rfl, rfl⟩

/-- C5: on the text `foo(1, 2+3)` `ParseExpression` does not return
`Call("foo", [Number(1), Binary('+', Number(2), Number(3))])`: the argument
`2+3` yields `nullptr` in `ParseBinOpRHS` (the token after `3` is `)`), and
`ParseIdentifierExpr` returns `nullptr`, nothing logged. -/
theorem C5_call_text_yields_nullptr (fuel : Nat) :
    (ParseExpression id (fuel + 8) (start "foo(1, 2+3)")).map
        (fun r => (r.1.isSome, r.2.CurTok, r.2.err))
      = some (false, chr ')', []) :=
  rfl

/-! ## Calls without arguments -/

section Calls

variable {D : Type} (strtod : String → D)

/-- C6: when the current token is an identifier and the next three tokens are
`(`, `)` and a token that is no binary operator, `ParseExpression` returns
`Call(f, [])` for the identifier text `f`, and the state it leaves is the one
after exactly three `getNextToken()` calls (the token after `)` is current). -/
theorem C6_zero_argument_call (st : State D) (fuel : Nat)
    (hid : st.CurTok = tok_identifier)
    (hopen : (getNextToken strtod st).CurTok = chr '(')
    (hclose : (getNextToken strtod (getNextToken strtod st)).CurTok = chr ')')
    (hnext : (getNextToken strtod (getNextToken strtod (getNextToken strtod st))).CurTok
      ∉ [chr '<', chr '>', chr '+', chr '-', chr '*', chr '/']) :
    ParseExpression strtod (fuel + 3) st
      = some (some (ExprAST.Call st.IdentifierStr []),
          getNextToken strtod (getNextToken strtod (getNextToken strtod st))) := by
  simp only [List.mem_cons, List.mem_singleton, List.not_mem_nil, or_false, not_or] at hnext
  obtain ⟨n1, n2, n3, n4, n5, n6⟩ := hnext
  have hprec : GetTokPrecedence
      (getNextToken strtod (getNextToken strtod (getNextToken strtod st))) = -1 := by
    simp [GetTokPrecedence, n1, n2, n3, n4, n5, n6]
  simp [ParseExpression, ParsePrimary, ParseIdentifierExpr, ParseBinOpRHS, hid, hopen, hclose,
    hprec]

end Calls

/-- The text `foo()` followed by the end of the input parses to
`Call("foo", [])`. -/
theorem C6_zero_argument_call_witness :
    (ParseExpression id 3 (start "foo()")).map (fun r => (r.1, r.2.CurTok, r.2.input))
      = some (some (ExprAST.Call "foo" []), tok_eof, []) :=
  congrArg (Option.map (fun r => (r.1, r.2.CurTok, r.2.input)))
    (C6_zero_argument_call id (start "foo()") 0 rfl rfl rfl (by decide))

/-! ## Prototypes -/

section Prototypes

variable {D : Type} (strtod : String → D)

theorem ParsePrototype_args_identRun (fuel : Nat) (ps : List String) (acc : List String)
    (st l3 : State D) (hrun : identRun strtod st ps = some l3)
    (hstop : (getNextToken strtod l3).CurTok ≠ tok_identifier) :
    ParsePrototype_args strtod (fuel + ps.length + 1) acc st
      = some (acc ++ ps, getNextToken strtod l3) := by
  induction ps generalizing acc st with
  | nil =>
    simp only [identRun, Option.some.injEq] at hrun
    subst hrun
    simp [ParsePrototype_args, hstop]
  | cons p ps ih =>
    simp only [identRun] at hrun
    split at hrun
    · rename_i hp
      have h := ih (acc ++ [p]) _ hrun
      have e : fuel + (p :: ps).length + 1 = (fuel + ps.length + 1) + 1 := by
        simp only [List.length_cons]; omega
      rw [e, ParsePrototype_args]
      simp only [hp.1, hp.2, if_true]
      rw [h]
      simp
    · exact absurd hrun (by simp)

/-- C7: when `extern` is followed by the tokens `Identifier(f)`, `(`, the
identifiers `p1 .. pn` (`n ≥ 0`, nothing between them) and then a token `t`:
if `t` is `)`, `ParseExtern` returns the prototype with name `f` and parameters
`[p1, .., pn]` and leaves the token after `)` current; if `t` is neither `)`
nor an identifier (a comma, say), it logs an error and returns `nullptr`. -/
theorem C7_extern_prototype (st l3 : State D) (f : String) (ps : List String) (fuel : Nat)
    (hext : st.CurTok = tok_extern)
    (hname : (getNextToken strtod st).CurTok = tok_identifier)
    (hf : (getNextToken strtod st).IdentifierStr = f)
    (hopen : (getNextToken strtod (getNextToken strtod st)).CurTok = chr '(')
    (hrun : identRun strtod (getNextToken strtod (getNextToken strtod st)) ps = some l3) :
    ((getNextToken strtod l3).CurTok = chr ')' →
      ParseExtern strtod (fuel + ps.length + 1) st
        = some (some ⟨f, ps⟩, getNextToken strtod (getNextToken strtod l3))) ∧
    ((getNextToken strtod l3).CurTok ≠ chr ')' →
      (getNextToken strtod l3).CurTok ≠ tok_identifier →
      ParseExtern strtod (fuel + ps.length + 1) st
        = some (none, LogError "Expected ')' in prototype" (getNextToken strtod l3))) := by
  have _ := hext
  constructor
  · intro hclose
    have hstop : (getNextToken strtod l3).CurTok ≠ tok_identifier := by
      rw [hclose]; decide
    have h := ParsePrototype_args_identRun strtod fuel ps [] _ l3 hrun hstop
    simp [ParseExtern, ParsePrototype, hname, hf, hopen, h, hclose]
  · intro hclose hstop
    have h := ParsePrototype_args_identRun strtod fuel ps [] _ l3 hrun hstop
    simp [ParseExtern, ParsePrototype, hname, hf, hopen, h, hclose]

end Prototypes

/-- The text `extern sin(x)` gives the prototype `sin` with the one parameter
`x`, and `extern sin(x, y)` gives `nullptr`. -/
theorem C7_extern_prototype_witness :
    (ParseExtern id 2 (start "extern sin(x)")).map (fun r => (r.1, r.2.CurTok))
      = some (some ⟨"sin", ["x"]⟩, tok_eof) ∧
    (ParseExtern id 2 (start "extern sin(x, y)")).map (fun r => (r.1, r.2.CurTok, r.2.err))
      = some (none, chr ',', ["LogError: Expected ')' in prototype\n"]) :=
  ⟨congrArg (Option.map (fun r => (r.1, r.2.CurTok)))
      ((C7_extern_prototype id (start "extern sin(x)") _ "sin" ["x"] 0 rfl rfl rfl rfl rfl).1 rfl),
    congrArg (Option.map (fun r => (r.1, r.2.CurTok, r.2.err)))
      ((C7_extern_prototype id (start "extern sin(x, y)") _ "sin" ["x"] 0 rfl rfl rfl rfl rfl).2
        (by decide) (by decide))⟩

/-! ## Failures of nested productions -/

/-- C13: on the text `1 + ;` the primary after `+` fails (the error is logged),
yet `ParseBinOpRHS` goes round its loop again and, `;` being no operator,
returns its left-hand side: `ParseExpression` returns `Number(1)`, not
`nullptr`. -/
theorem C13_nested_failure_returns_a_tree (fuel : Nat) :
    (ParseExpression id (fuel + 3) (start "1 + ;")).map (fun r => (r.1, r.2.CurTok, r.2.err))
      = some (some (ExprAST.Number "1"), chr ';',
          ["LogError: unknown token when expecting an expression\n"]) :=
  rfl

/-- C14: on the text `1+2` `ParseExpression` and `ParseTopLevelExpr` return
`nullptr` and nothing has been written to `stderr`; so does `ParseDefinition`
on `def f(x) x+1`. -/
theorem C14_absence_without_diagnostic (fuel : Nat) :
    (ParseExpression id (fuel + 3) (start "1+2")).map (fun r => (r.1.isSome, r.2.err))
      = some (false, []) ∧
    (ParseTopLevelExpr id (fuel + 3) (start "1+2")).map (fun r => (r.1.isSome, r.2.err))
      = some (false, []) ∧
    (ParseDefinition id (fuel + 3) (start "def f(x) x+1")).map (fun r => (r.1.isSome, r.2.err))
      = some (false, []) :=
  ⟨rfl, rfl, rfl⟩

/-! ## The handlers of the driver -/

section Handlers

variable {D : Type} (strtod : String → D)

/-- C15: each handler calls its parsing function once; when that returns
`nullptr` the handler leaves the state after exactly one more
`getNextToken()`, and when it returns a result the handler only writes its
message to `stderr` (no token is consumed). When the parsing function does not
return, neither does the handler. -/
theorem C15_handlers_skip_one_token_on_failure (fuel : Nat) (st : State D) :
    (∀ st1, ParseDefinition strtod fuel st = some (none, st1) →
      HandleDefinition strtod fuel st = some (getNextToken strtod st1)) ∧
    (∀ F st1, ParseDefinition strtod fuel st = some (some F, st1) →
      HandleDefinition strtod fuel st
        = some { st1 with err := st1.err ++ ["Parsed a function definition.\n"] }) ∧
    (∀ st1, ParseExtern strtod fuel st = some (none, st1) →
      HandleExtern strtod fuel st = some (getNextToken strtod st1)) ∧
    (∀ P st1, ParseExtern strtod fuel st = some (some P, st1) →
      HandleExtern strtod fuel st
        = some { st1 with err := st1.err ++ ["Parsed an extern\n"] }) ∧
    (∀ st1, ParseTopLevelExpr strtod fuel st = some (none, st1) →
      HandleTopLevelExpression strtod fuel st = some (getNextToken strtod st1)) ∧
    (∀ F st1, ParseTopLevelExpr strtod fuel st = some (some F, st1) →
      HandleTopLevelExpression strtod fuel st
        = some { st1 with err := st1.err ++ ["Parsed a top-level expr\n"] }) ∧
    (ParseDefinition strtod fuel st = none → HandleDefinition strtod fuel st = none) ∧
    (ParseExtern strtod fuel st = none → HandleExtern strtod fuel st = none) ∧
    (ParseTopLevelExpr strtod fuel st = none →
      HandleTopLevelExpression strtod fuel st = none) := by
  refine ⟨?_, ?_, ?_, ?_, ?_, ?_, ?_, ?_, ?_⟩ <;> intros <;>
    simp_all [HandleDefinition, HandleExtern, HandleTopLevelExpression, eprint]

/-- C17: `ParseParenExpr` returns a tree `W` if and only if the inner
`ParseExpression` after the `(` returns `W` and the token then current is not
`)`, and in that case it consumes exactly that one token; when the inner
expression returns a tree and the current token is `)`, it logs `expect ')'`,
returns `nullptr` and leaves the `)` current. -/
theorem C17_paren_rule_as_coded (fuel : Nat) (st : State D) (hopen : st.CurTok = chr '(') :
    (∀ W st2, ParseParenExpr strtod (fuel + 1) st = some (some W, st2) ↔
      ∃ st1, ParseExpression strtod fuel (getNextToken strtod st) = some (some W, st1) ∧
        st1.CurTok ≠ chr ')' ∧ st2 = getNextToken strtod st1) ∧
    (∀ V st1, ParseExpression strtod fuel (getNextToken strtod st) = some (some V, st1) →
      st1.CurTok = chr ')' →
      ParseParenExpr strtod (fuel + 1) st = some (none, LogError "expect ')'" st1) ∧
      (LogError "expect ')'" st1).CurTok = chr ')' ∧
      (LogError "expect ')'" st1).input = st1.input ∧
      (LogError "expect ')'" st1).LastChar = st1.LastChar ∧
      (LogError "expect ')'" st1).err = st1.err ++ ["LogError: expect ')'\n"]) := by
  have _ := hopen
  refine ⟨?_, ?_⟩
  · intro W st2
    constructor
    · intro h
      simp only [ParseParenExpr] at h
      split at h
      · exact absurd h (by simp)
      · exact absurd h (by simp)
      · rename_i V st1 hinner
        split at h
        · rename_i hc
          simp only [Option.some.injEq, Prod.mk.injEq] at h
          obtain ⟨h1, h2⟩ := h
          subst h1
          exact ⟨st1, hinner, hc, h2.symm⟩
        · exact absurd h (by simp)
    · rintro ⟨st1, hinner, hc, rfl⟩
      simp [ParseParenExpr, hinner, hc]
  · intro V st1 hinner h
    exact ⟨by simp [ParseParenExpr, hinner, h], h, rfl, rfl, by simp [LogError]⟩

end Handlers

/-- On `)` the top-level parse fails and `HandleTopLevelExpression` skips the
`)`; on `x` it succeeds and only the message is written. -/
theorem C15_handlers_skip_one_token_on_failure_witness :
    HandleTopLevelExpression id 3 (start ") x")
      = some (getNextToken id
          (LogError "unknown token when expecting an expression" (start ") x"))) ∧
    HandleTopLevelExpression id 3 (start "x")
      = some { getNextToken id (start "x") with err := ["Parsed a top-level expr\n"] } :=
  ⟨(C15_handlers_skip_one_token_on_failure id 3 (start ") x")).2.2.2.2.1 _ rfl,
    (C15_handlers_skip_one_token_on_failure id 3 (start "x")).2.2.2.2.2.1
      ⟨⟨"", []⟩, ExprAST.Variable "x"⟩ (getNextToken id (start "x")) rfl⟩

/-- On `(1)` the inner expression leaves `)` current and `ParseParenExpr` returns
`nullptr` with the error logged; on `(1;` it returns `Number(1)` and consumes
the `;`. -/
theorem C17_paren_rule_as_coded_witness :
    ParseParenExpr id 4 (start "(1)")
      = some (none, LogError "expect ')'" (getNextToken id (getNextToken id (start "(1)")))) ∧
    ParseParenExpr id 4 (start "(1;")
      = some (some (ExprAST.Number "1"),
          getNextToken id (getNextToken id (getNextToken id (start "(1;")))) :=
  ⟨((C17_paren_rule_as_coded id 3 (start "(1)") rfl).2 (ExprAST.Number "1") _ rfl
      (by decide)).1,
    ((C17_paren_rule_as_coded id 3 (start "(1;") rfl).1 (ExprAST.Number "1") _).2
      ⟨getNextToken id (getNextToken id (start "(1;")), rfl, by decide, rfl⟩⟩

/-! ## What `ParseBinOpRHS` returns -/

section BinOp

variable {D : Type} (strtod : String → D)

/-- The pointer `ParseBinOpRHS` returns is `nullptr` or the `LHS` it was
given. -/
theorem ParseBinOpRHS_result (fuel : Nat) (p : Int) (LHS : ExprAST D) (st : State D)
    (r : Option (ExprAST D)) (st1 : State D)
    (h : ParseBinOpRHS strtod fuel p LHS st = some (r, st1)) :
    r = none ∨ r = some LHS := by
  induction fuel generalizing st with
  | zero => simp [ParseBinOpRHS] at h
  | succ fuel ih =>
    simp only [ParseBinOpRHS] at h
    split at h
    · simp only [Option.some.injEq, Prod.mk.injEq] at h
      exact Or.inr h.1.symm
    · split at h
      · exact absurd h (by simp)
      · simp only [Option.isNone_none, if_true, ite_self, Option.some.injEq,
          Prod.mk.injEq] at h
        exact Or.inl h.1.symm
      · exact ih _ h

theorem hasBinaryList_eq_false (l : List (ExprAST D)) :
    hasBinaryList l = false ↔ ∀ a ∈ l, a.hasBinary = false := by
  induction l with
  | nil => simp [hasBinaryList]
  | cons b l ih => simp [hasBinaryList, ih]

theorem binaryOpsInList_eq_true (ops : List Int) (l : List (ExprAST D)) :
    binaryOpsInList ops l = true ↔ ∀ a ∈ l, a.binaryOpsIn ops = true := by
  induction l with
  | nil => simp [binaryOpsInList]
  | cons b l ih => simp [binaryOpsInList, ih]

/-- Every tree the expression parser returns is built from numbers, variables
and calls: a property `Q` of trees that holds of these holds of every tree
returned. -/
theorem parse_trees (Q : ExprAST D → Prop) (hN : ∀ v, Q (ExprAST.Number v))
    (hV : ∀ n, Q (ExprAST.Variable n))
    (hC : ∀ f Args, (∀ a ∈ Args, Q a) → Q (ExprAST.Call f Args)) (fuel : Nat) :
    (∀ (st : State D) e st1, ParseParenExpr strtod fuel st = some (some e, st1) → Q e) ∧
    (∀ (Args : List (ExprAST D)) (st : State D) l st1, (∀ a ∈ Args, Q a) →
      ParseIdentifierExpr_args strtod fuel Args st = some (some l, st1) → ∀ a ∈ l, Q a) ∧
    (∀ (st : State D) e st1, ParseIdentifierExpr strtod fuel st = some (some e, st1) → Q e) ∧
    (∀ (st : State D) e st1, ParsePrimary strtod fuel st = some (some e, st1) → Q e) ∧
    (∀ (st : State D) e st1, ParseExpression strtod fuel st = some (some e, st1) → Q e) := by
  induction fuel with
  | zero =>
    refine ⟨?_, ?_, ?_, ?_, ?_⟩ <;> intros <;>
      simp_all [ParseParenExpr, ParseIdentifierExpr_args, ParseIdentifierExpr, ParsePrimary,
        ParseExpression]
  | succ fuel ih =>
    obtain ⟨ihParen, ihArgs, ihIdent, ihPrimary, ihExpr⟩ := ih
    refine ⟨?_, ?_, ?_, ?_, ?_⟩
    · intro st e st1 h
      simp only [ParseParenExpr] at h
      split at h
      · exact absurd h (by simp)
      · exact absurd h (by simp)
      · rename_i V st2 hinner
        split at h
        · simp only [Option.some.injEq, Prod.mk.injEq] at h
          obtain ⟨h1, _⟩ := h
          subst h1
          exact ihExpr _ _ _ hinner
        · exact absurd h (by simp)
    · intro Args st l st1 hArgs h
      simp only [ParseIdentifierExpr_args] at h
      split at h
      · exact absurd h (by simp)
      · exact absurd h (by simp)
      · rename_i Arg st2 hinner
        have hArg : Q Arg := ihExpr _ _ _ hinner
        have hAll : ∀ a ∈ Args ++ [Arg], Q a := by
          intro a ha
          rcases List.mem_append.mp ha with ha | ha
          · exact hArgs a ha
          · rw [List.mem_singleton.mp ha]; exact hArg
        split at h
        · simp only [Option.some.injEq, Prod.mk.injEq] at h
          obtain ⟨h1, _⟩ := h
          subst h1
          exact hAll
        · split at h
          · exact absurd h (by simp)
          · exact ihArgs _ _ _ _ hAll h
    · intro st e st1 h
      simp only [ParseIdentifierExpr] at h
      split at h
      · simp only [Option.some.injEq, Prod.mk.injEq] at h
        obtain ⟨h1, _⟩ := h
        subst h1
        exact hV _
      · split at h
        · split at h
          · exact absurd h (by simp)
          · exact absurd h (by simp)
          · rename_i Args st3 hargs
            simp only [Option.some.injEq, Prod.mk.injEq] at h
            obtain ⟨h1, _⟩ := h
            subst h1
            exact hC _ _ (ihArgs [] _ _ _ (by simp) hargs)
        · simp only [Option.some.injEq, Prod.mk.injEq] at h
          obtain ⟨h1, _⟩ := h
          subst h1
          exact hC _ _ (by simp)
    · intro st e st1 h
      simp only [ParsePrimary] at h
      split at h
      · exact ihIdent _ _ _ h
      · split at h
        · simp only [ParseNumberExpr, Option.some.injEq, Prod.mk.injEq] at h
          obtain ⟨h1, _⟩ := h
          subst h1
          exact hN _
        · split at h
          · exact ihParen _ _ _ h
          · exact absurd h (by simp)
    · intro st e st1 h
      simp only [ParseExpression] at h
      split at h
      · exact absurd h (by simp)
      · exact absurd h (by simp)
      · rename_i LHS st2 hprim
        rcases ParseBinOpRHS_result strtod _ _ _ _ _ _ h with e1 | e1
        · exact absurd e1 (by simp)
        · simp only [Option.some.injEq] at e1
          subst e1
          exact ihPrimary _ _ _ hprim

theorem ParseExpression_noBinary (fuel : Nat) (st : State D) (e : ExprAST D) (st1 : State D)
    (h : ParseExpression strtod fuel st = some (some e, st1)) : e.hasBinary = false :=
  (parse_trees strtod (fun e => e.hasBinary = false) (fun _ => rfl) (fun _ => rfl)
    (fun _ Args hA => by
      simp only [ExprAST.hasBinary]
      exact (hasBinaryList_eq_false Args).mpr hA) fuel).2.2.2.2 st e st1 h

theorem ParsePrimary_noBinary (fuel : Nat) (st : State D) (e : ExprAST D) (st1 : State D)
    (h : ParsePrimary strtod fuel st = some (some e, st1)) : e.hasBinary = false :=
  (parse_trees strtod (fun e => e.hasBinary = false) (fun _ => rfl) (fun _ => rfl)
    (fun _ Args hA => by
      simp only [ExprAST.hasBinary]
      exact (hasBinaryList_eq_false Args).mpr hA) fuel).2.2.2.1 st e st1 h

theorem ParseExpression_binaryOpsIn (ops : List Int) (fuel : Nat) (st : State D)
    (e : ExprAST D) (st1 : State D)
    (h : ParseExpression strtod fuel st = some (some e, st1)) : e.binaryOpsIn ops = true :=
  (parse_trees strtod (fun e => e.binaryOpsIn ops = true) (fun _ => rfl) (fun _ => rfl)
    (fun _ Args hA => by
      simp only [ExprAST.binaryOpsIn]
      exact (binaryOpsInList_eq_true ops Args).mpr hA) fuel).2.2.2.2 st e st1 h

theorem ParsePrimary_binaryOpsIn (ops : List Int) (fuel : Nat) (st : State D)
    (e : ExprAST D) (st1 : State D)
    (h : ParsePrimary strtod fuel st = some (some e, st1)) : e.binaryOpsIn ops = true :=
  (parse_trees strtod (fun e => e.binaryOpsIn ops = true) (fun _ => rfl) (fun _ => rfl)
    (fun _ Args hA => by
      simp only [ExprAST.binaryOpsIn]
      exact (binaryOpsInList_eq_true ops Args).mpr hA) fuel).2.2.2.1 st e st1 h

/-- The step of `ParseBinOpRHS` when the loop is entered and the right-hand
primary parses: `nullptr`, in the state the primary left. -/
theorem ParseBinOpRHS_rhs_parsed (fuel : Nat) (p : Int) (LHS RHS : ExprAST D)
    (st st1 : State D) (hloop : ¬ GetTokPrecedence st < p)
    (hrhs : ParsePrimary strtod fuel (getNextToken strtod st) = some (some RHS, st1)) :
    ParseBinOpRHS strtod (fuel + 1) p LHS st = some (none, st1) := by
  simp [ParseBinOpRHS, hloop, hrhs]

theorem GetTokPrecedence_lt_imp (st st1 : State D) (p : Int) (hp : 0 ≤ p)
    (hloop : ¬ GetTokPrecedence st < p) (hnext : GetTokPrecedence st < GetTokPrecedence st1) :
    st.CurTok ∈ [chr '+', chr '-', chr '<', chr '>'] := by
  have h1 : GetTokPrecedence st1 ≤ 40 := by
    simp only [GetTokPrecedence]; split_ifs <;> omega
  simp only [List.mem_cons, List.mem_singleton, List.not_mem_nil, or_false]
  simp only [GetTokPrecedence] at hloop hnext h1
  by_cases a : st.CurTok = chr '<' ∨ st.CurTok = chr '>'
  · tauto
  · by_cases b : st.CurTok = chr '+' ∨ st.CurTok = chr '-'
    · tauto
    · rw [if_neg a, if_neg b] at hloop hnext
      split_ifs at hloop hnext h1 <;> omega

/-- C19: (1) the pointer `ParseBinOpRHS` returns is `nullptr` or the very `LHS`
it was given; (2) no tree returned by `ParseExpression`, and no body of a
function returned by `ParseDefinition` or `ParseTopLevelExpr`, contains a
`Binary` node; (3) when the loop of `ParseBinOpRHS` is entered and the
right-hand primary parses, the result is `nullptr`, and so is that of
`ParseExpression` when its primary is followed by a binary operator and a
primary that parses. -/
theorem C19_no_binary_node_is_returned (fuel : Nat) :
    (∀ (p : Int) (LHS : ExprAST D) (st : State D) r st1,
      ParseBinOpRHS strtod fuel p LHS st = some (r, st1) → r = none ∨ r = some LHS) ∧
    (∀ (st : State D) e st1, ParseExpression strtod fuel st = some (some e, st1) →
      e.hasBinary = false) ∧
    (∀ (st : State D) F st1, ParseDefinition strtod fuel st = some (some F, st1) →
      F.Body.hasBinary = false) ∧
    (∀ (st : State D) F st1, ParseTopLevelExpr strtod fuel st = some (some F, st1) →
      F.Body.hasBinary = false) ∧
    (∀ (p : Int) (LHS RHS : ExprAST D) (st st1 : State D), ¬ GetTokPrecedence st < p →
      ParsePrimary strtod fuel (getNextToken strtod st) = some (some RHS, st1) →
      ParseBinOpRHS strtod (fuel + 1) p LHS st = some (none, st1)) ∧
    (∀ (LHS RHS : ExprAST D) (st st0 st1 : State D),
      ParsePrimary strtod (fuel + 1) st = some (some LHS, st0) →
      st0.CurTok ∈ [chr '<', chr '>', chr '+', chr '-', chr '*', chr '/'] →
      ParsePrimary strtod fuel (getNextToken strtod st0) = some (some RHS, st1) →
      ParseExpression strtod (fuel + 2) st = some (none, st1)) := by
  refine ⟨?_, ?_, ?_, ?_, ?_, ?_⟩
  · intro p LHS st r st1 h
    exact ParseBinOpRHS_result strtod fuel p LHS st r st1 h
  · intro st e st1 h
    exact ParseExpression_noBinary strtod fuel st e st1 h
  · intro st F st1 h
    simp only [ParseDefinition] at h
    split at h
    · exact absurd h (by simp)
    · exact absurd h (by simp)
    · split at h
      · exact absurd h (by simp)
      · rename_i E st3 hE
        simp only [Option.some.injEq, Prod.mk.injEq] at h
        obtain ⟨h1, _⟩ := h
        subst h1
        exact ParseExpression_noBinary strtod fuel _ E st3 hE
      · exact absurd h (by simp)
  · intro st F st1 h
    simp only [ParseTopLevelExpr] at h
    split at h
    · exact absurd h (by simp)
    · rename_i E st3 hE
      simp only [Option.some.injEq, Prod.mk.injEq] at h
      obtain ⟨h1, _⟩ := h
      subst h1
      exact ParseExpression_noBinary strtod fuel _ E st3 hE
    · exact absurd h (by simp)
  · intro p LHS RHS st st1 hloop hrhs
    exact ParseBinOpRHS_rhs_parsed strtod fuel p LHS RHS st st1 hloop hrhs
  · intro LHS RHS st st0 st1 hprim hop hrhs
    have hloop : ¬ GetTokPrecedence st0 < 0 := by
      simp only [List.mem_cons, List.mem_singleton, List.not_mem_nil, or_false] at hop
      simp only [GetTokPrecedence]
      rcases hop with h | h | h | h | h | h <;> rw [h] <;> decide
    have h := ParseBinOpRHS_rhs_parsed strtod fuel 0 LHS RHS st0 st1 hloop hrhs
    have e : fuel + 2 = (fuel + 1) + 1 := rfl
    rw [e, ParseExpression]
    simp only [hprim, h]

end BinOp

/-- On `1+2` the primary `2` after `+` parses and `ParseExpression` returns
`nullptr`. -/
theorem C19_no_binary_node_is_returned_witness :
    ParseExpression id 3 (start "1+2")
      = some (none, getNextToken id (getNextToken id (getNextToken id (start "1+2")))) :=
  (C19_no_binary_node_is_returned id 1).2.2.2.2.2 (ExprAST.Number "1") (ExprAST.Number "2")
    (start "1+2") (getNextToken id (start "1+2")) _ rfl (by decide) rfl

/-! ## The loop of `ParseBinOpRHS` after a failed right-hand primary -/

section BinOpLoop

variable {D : Type} (strtod : String → D)

theorem gettok_at_EOF (st : State D) (h : st.LastChar = EOF) :
    gettok strtod st = (tok_eof, { st with LastChar := EOF, input := st.input }) := by
  have hsk : skipSpaces st.LastChar st.input = (EOF, st.input) := by
    rw [h]; exact skipSpaces_of_not_space _ _ (by decide)
  have e1 : isalpha EOF = false := by decide
  have e2 : (isdigit EOF || decide (EOF = chr '.')) = false := by decide
  have e3 : ¬ EOF = chr '#' := by decide
  simp only [gettok, gettokFuel, hsk, e1, e2, e3, if_false, Bool.false_eq_true, gettokChar,
    if_true]

theorem getNextToken_at_EOF (st : State D) (h : st.LastChar = EOF) :
    (getNextToken strtod st).CurTok = tok_eof ∧ (getNextToken strtod st).LastChar = EOF := by
  simp only [getNextToken, gettok_at_EOF strtod st h, and_self]

/-- With `ExprPrec ≤ -1`, at the end of the input, `ParseBinOpRHS` does not
return, whatever the fuel. -/
theorem ParseBinOpRHS_diverges (fuel : Nat) (p : Int) (LHS : ExprAST D) (st : State D)
    (hp : p ≤ -1) (htok : st.CurTok = tok_eof) (hlast : st.LastChar = EOF) :
    ParseBinOpRHS strtod fuel p LHS st = none := by
  induction fuel generalizing st with
  | zero => rfl
  | succ fuel ih =>
    have hprec : GetTokPrecedence st = -1 := by
      simp only [GetTokPrecedence, htok]; decide
    have hloop : ¬ GetTokPrecedence st < p := by rw [hprec]; omega
    obtain ⟨h1, h2⟩ := getNextToken_at_EOF strtod st hlast
    rw [ParseBinOpRHS]
    simp only [hloop, if_false]
    cases fuel with
    | zero => simp [ParsePrimary]
    | succ n =>
      have e1 : ¬ tok_eof = tok_identifier := by decide
      have e2 : ¬ tok_eof = tok_number := by decide
      have e3 : ¬ tok_eof = chr '(' := by decide
      simp only [ParsePrimary, h1, e1, e2, e3, if_false]
      exact ih _ (by simp only [LogError, h1]) (by simp only [LogError, h2])

end BinOpLoop

/-! ## Termination: the lexer consumes characters -/

section LexerProgress

variable {D : Type} (strtod : String → D)

theorem pend_le (last : Int) (inp : List Char) : pend last inp ≤ inp.length + 1 := by
  simp only [pend]; split <;> omega

theorem pend_of_ne (last : Int) (inp : List Char) (h : last ≠ EOF) :
    pend last inp = inp.length + 1 := by
  simp only [pend, if_neg h]

theorem pend_getchar (inp : List Char) : pend (getchar inp).1 (getchar inp).2 ≤ inp.length := by
  cases inp with
  | nil => simp [getchar, pend]
  | cons c cs => simp [getchar, pend, chr_ne_EOF]

theorem pend_skipSpaces (last : Int) (inp : List Char) :
    pend (skipSpaces last inp).1 (skipSpaces last inp).2 ≤ pend last inp := by
  induction inp generalizing last with
  | nil => simp only [skipSpaces]; split <;> simp [pend]
  | cons c cs ih =>
    simp only [skipSpaces]
    split
    · rename_i hsp
      have h1 := ih (chr c)
      have h2 := pend_of_ne (chr c) cs (chr_ne_EOF c)
      have h3 : last ≠ EOF := by intro e; rw [e] at hsp; exact absurd hsp (by decide)
      have h4 := pend_of_ne last (c :: cs) h3
      simp only [List.length_cons] at h4
      omega
    · exact Nat.le_refl _

theorem pend_identLoop (s : String) (inp : List Char) :
    pend (identLoop s inp).2.1 (identLoop s inp).2.2 ≤ inp.length := by
  induction inp generalizing s with
  | nil => simp [identLoop, pend]
  | cons c cs ih =>
    simp only [identLoop]
    split
    · exact Nat.le_trans (ih _) (by simp)
    · simp [pend, chr_ne_EOF]

theorem pend_numLoop (s : String) (last : Int) (inp : List Char) :
    pend (numLoop s last inp).2.1 (numLoop s last inp).2.2 ≤ inp.length := by
  induction inp generalizing s last with
  | nil => simp [numLoop, pend]
  | cons c cs ih =>
    simp only [numLoop]
    split
    · exact Nat.le_trans (ih _ _) (by simp)
    · simp [pend, chr_ne_EOF]

theorem pend_commentLoop (inp : List Char) :
    pend (commentLoop inp).1 (commentLoop inp).2 ≤ inp.length := by
  induction inp with
  | nil => simp [commentLoop, pend]
  | cons c cs ih =>
    simp only [commentLoop]
    split
    · exact Nat.le_trans ih (by simp)
    · simp [pend, chr_ne_EOF]

/-- A call of `gettok` never gives characters back, and it uses at least one
up unless it returns `tok_eof`. -/
theorem gettokFuel_pending (n : Nat) (st : State D) :
    pending (gettokFuel strtod n st).2 ≤ pending st ∧
      ((gettokFuel strtod n st).1 ≠ tok_eof →
        pending (gettokFuel strtod n st).2 < pending st) := by
  induction n generalizing st with
  | zero => exact ⟨Nat.le_refl _, fun h => absurd rfl h⟩
  | succ n ih =>
    have hsk := pend_skipSpaces st.LastChar st.input
    simp only [pending] at ih ⊢
    simp only [gettokFuel]
    generalize skipSpaces st.LastChar st.input = sk at hsk
    split
    · rename_i ha
      have hne : sk.1 ≠ EOF := by intro e; rw [e] at ha; exact absurd ha (by decide)
      have h1 := pend_of_ne sk.1 sk.2 hne
      have h2 := pend_identLoop (String.singleton (toChar sk.1)) sk.2
      split
      · dsimp only
        exact ⟨by omega, fun _ => by omega⟩
      · split
        · dsimp only
          exact ⟨by omega, fun _ => by omega⟩
        · dsimp only
          exact ⟨by omega, fun _ => by omega⟩
    · split
      · rename_i hd
        have hne : sk.1 ≠ EOF := by intro e; rw [e] at hd; exact absurd hd (by decide)
        have h1 := pend_of_ne sk.1 sk.2 hne
        have h2 := pend_numLoop "" sk.1 sk.2
        dsimp only
        exact ⟨by omega, fun _ => by omega⟩
      · split
        · rename_i hc
          have hne : sk.1 ≠ EOF := by rw [hc]; decide
          have h1 := pend_of_ne sk.1 sk.2 hne
          have h2 := pend_commentLoop sk.2
          split
          · have h4 := (ih ⟨(commentLoop sk.2).2, (commentLoop sk.2).1, st.IdentifierStr,
              st.NumVal, st.CurTok, st.err⟩).1
            dsimp only at h4
            exact ⟨by omega, fun _ => by omega⟩
          · rename_i he
            have he2 : (commentLoop sk.2).1 = EOF := not_not.mp he
            simp only [gettokChar, he2, if_true]
            rw [he2] at h2
            have h5 : pend EOF (commentLoop sk.2).2 ≤ pend (commentLoop sk.2).1
                (commentLoop sk.2).2 := by rw [he2]
            exact ⟨by omega, fun _ => by omega⟩
        · simp only [gettokChar]
          split
          · dsimp only
            exact ⟨hsk, fun h => absurd rfl h⟩
          · rename_i hne
            have h1 := pend_of_ne sk.1 sk.2 hne
            have h2 := pend_getchar sk.2
            dsimp only
            exact ⟨by omega, fun _ => by omega⟩

/-- One `getNextToken()` never adds to the tokens left, and it takes one away
when the current token is not `tok_eof`. -/
theorem getNextToken_tokensLeft (st : State D) :
    tokensLeft (getNextToken strtod st) ≤ tokensLeft st ∧
      (st.CurTok ≠ tok_eof → tokensLeft (getNextToken strtod st) < tokensLeft st) := by
  obtain ⟨h1, h2⟩ := gettokFuel_pending strtod (st.input.length + 1) st
  have e : tokensLeft (getNextToken strtod st)
      = pending (gettok strtod st).2 + (if (gettok strtod st).1 = tok_eof then 0 else 1) := rfl
  rw [e]
  simp only [tokensLeft, gettok] at *
  by_cases ht : (gettokFuel strtod (st.input.length + 1) st).1 = tok_eof
  · rw [if_pos ht]
    constructor
    · omega
    · intro hc; rw [if_neg hc]; omega
  · rw [if_neg ht]
    have := h2 ht
    constructor
    · split <;> omega
    · intro hc; rw [if_neg hc]; omega

theorem tokensLeft_LogError (msg : String) (st : State D) :
    tokensLeft (LogError msg st) = tokensLeft st := rfl

end LexerProgress

/-! ## Termination: the parser -/

section ParserTermination

variable {D : Type} (strtod : String → D)

theorem progress_le {α : Type} {st st1 : State D} {r : Option α} (h : progress st r st1) :
    tokensLeft st1 ≤ tokensLeft st := by
  rcases h with h | ⟨_, _, h⟩
  · exact Nat.le_of_lt h
  · exact h

theorem progress_some {α : Type} {st st1 : State D} {x : α} (h : progress st (some x) st1) :
    tokensLeft st1 < tokensLeft st := by
  rcases h with h | ⟨h, _, _⟩
  · exact h
  · exact absurd h (by simp)

theorem CurTok_ne_eof_of_loop (st : State D) (p : Int) (hp : 0 ≤ p)
    (hloop : ¬ GetTokPrecedence st < p) : st.CurTok ≠ tok_eof := by
  intro e
  have h : GetTokPrecedence st = -1 := by
    simp only [GetTokPrecedence, e]; decide
  omega

/-- With enough fuel for the tokens left, each of the mutually recursive
parsing functions returns (`ParseBinOpRHS` for `ExprPrec ≥ 0`), and consumes
only tokens that were left. -/
theorem parse_returns (m : Nat) :
    (∀ (p : Int) (LHS : ExprAST D) (st : State D) (fuel : Nat), 0 ≤ p → tokensLeft st ≤ m →
      4 * m + 1 ≤ fuel →
      ∃ r st1, ParseBinOpRHS strtod fuel p LHS st = some (r, st1) ∧
        tokensLeft st1 ≤ tokensLeft st) ∧
    (∀ (st : State D) (fuel : Nat), st.CurTok ≠ tok_eof → tokensLeft st ≤ m →
      4 * m + 2 ≤ fuel →
      ∃ r st1, ParseIdentifierExpr strtod fuel st = some (r, st1) ∧
        tokensLeft st1 < tokensLeft st) ∧
    (∀ (st : State D) (fuel : Nat), st.CurTok ≠ tok_eof → tokensLeft st ≤ m →
      4 * m + 2 ≤ fuel →
      ∃ r st1, ParseParenExpr strtod fuel st = some (r, st1) ∧
        tokensLeft st1 < tokensLeft st) ∧
    (∀ (st : State D) (fuel : Nat), tokensLeft st ≤ m → 4 * m + 3 ≤ fuel →
      ∃ r st1, ParsePrimary strtod fuel st = some (r, st1) ∧ progress st r st1) ∧
    (∀ (st : State D) (fuel : Nat), tokensLeft st ≤ m → 4 * m + 4 ≤ fuel →
      ∃ r st1, ParseExpression strtod fuel st = some (r, st1) ∧ progress st r st1) ∧
    (∀ (Args : List (ExprAST D)) (st : State D) (fuel : Nat), tokensLeft st ≤ m →
      4 * m + 5 ≤ fuel →
      ∃ r st1, ParseIdentifierExpr_args strtod fuel Args st = some (r, st1) ∧
        tokensLeft st1 ≤ tokensLeft st) := by
  induction m using Nat.strong_induction_on with
  | _ m ih =>
    have hBin : ∀ (p : Int) (LHS : ExprAST D) (st : State D) (fuel : Nat), 0 ≤ p →
        tokensLeft st ≤ m → 4 * m + 1 ≤ fuel →
        ∃ r st1, ParseBinOpRHS strtod fuel p LHS st = some (r, st1) ∧
          tokensLeft st1 ≤ tokensLeft st := by
      intro p LHS st fuel hp hm hf
      cases fuel with
      | zero => omega
      | succ f =>
        rw [ParseBinOpRHS]
        by_cases hlt : GetTokPrecedence st < p
        · simp only [hlt, if_true]
          exact ⟨_, _, rfl, Nat.le_refl _⟩
        · simp only [hlt, if_false]
          have hne := CurTok_ne_eof_of_loop st p hp hlt
          have h1 := (getNextToken_tokensLeft strtod st).2 hne
          obtain ⟨ihBin, _, _, ihPrim, _, _⟩ := ih (m - 1) (by omega)
          obtain ⟨r, st1, e1, hprog⟩ := ihPrim (getNextToken strtod st) f (by omega) (by omega)
          have h2 := progress_le hprog
          rw [e1]
          cases r with
          | some RHS =>
            simp only [Option.isNone_none, if_true, ite_self]
            exact ⟨_, _, rfl, by omega⟩
          | none =>
            obtain ⟨r2, st2, e2, h3⟩ := ihBin p LHS st1 f hp (by omega) (by omega)
            exact ⟨r2, st2, e2, by omega⟩
    have hIdent : ∀ (st : State D) (fuel : Nat), st.CurTok ≠ tok_eof → tokensLeft st ≤ m →
        4 * m + 2 ≤ fuel →
        ∃ r st1, ParseIdentifierExpr strtod fuel st = some (r, st1) ∧
          tokensLeft st1 < tokensLeft st := by
      intro st fuel hne hm hf
      cases fuel with
      | zero => omega
      | succ f =>
        rw [ParseIdentifierExpr]
        have h1 := (getNextToken_tokensLeft strtod st).2 hne
        have h2 := (getNextToken_tokensLeft strtod (getNextToken strtod st)).1
        dsimp only
        split
        · exact ⟨_, _, rfl, h1⟩
        · split
          · obtain ⟨_, _, _, _, _, ihArgs⟩ := ih (m - 1) (by omega)
            obtain ⟨r, st3, e3, h3⟩ := ihArgs [] (getNextToken strtod (getNextToken strtod st)) f
              (by omega) (by omega)
            rw [e3]
            cases r with
            | none => exact ⟨_, _, rfl, by omega⟩
            | some Args =>
              have h4 := (getNextToken_tokensLeft strtod st3).1
              exact ⟨_, _, rfl, by omega⟩
          · have h4 := (getNextToken_tokensLeft strtod
              (getNextToken strtod (getNextToken strtod st))).1
            exact ⟨_, _, rfl, by omega⟩
    have hParen : ∀ (st : State D) (fuel : Nat), st.CurTok ≠ tok_eof → tokensLeft st ≤ m →
        4 * m + 2 ≤ fuel →
        ∃ r st1, ParseParenExpr strtod fuel st = some (r, st1) ∧
          tokensLeft st1 < tokensLeft st := by
      intro st fuel hne hm hf
      cases fuel with
      | zero => omega
      | succ f =>
        rw [ParseParenExpr]
        have h1 := (getNextToken_tokensLeft strtod st).2 hne
        obtain ⟨_, _, _, _, ihExpr, _⟩ := ih (m - 1) (by omega)
        obtain ⟨r, st1, e1, hprog⟩ := ihExpr (getNextToken strtod st) f (by omega) (by omega)
        have h2 := progress_le hprog
        rw [e1]
        cases r with
        | none => exact ⟨_, _, rfl, by omega⟩
        | some V =>
          dsimp only
          split
          · have h4 := (getNextToken_tokensLeft strtod st1).1
            exact ⟨_, _, rfl, by omega⟩
          · exact ⟨_, _, rfl, by rw [tokensLeft_LogError]; omega⟩
    have hPrim : ∀ (st : State D) (fuel : Nat), tokensLeft st ≤ m → 4 * m + 3 ≤ fuel →
        ∃ r st1, ParsePrimary strtod fuel st = some (r, st1) ∧ progress st r st1 := by
      intro st fuel hm hf
      cases fuel with
      | zero => omega
      | succ f =>
        rw [ParsePrimary]
        split
        · rename_i hid
          have hne : st.CurTok ≠ tok_eof := by rw [hid]; decide
          obtain ⟨r, st1, e1, h1⟩ := hIdent st f hne hm (by omega)
          exact ⟨r, st1, e1, Or.inl h1⟩
        · split
          · rename_i hn
            have hne : st.CurTok ≠ tok_eof := by rw [hn]; decide
            exact ⟨_, _, rfl, Or.inl ((getNextToken_tokensLeft strtod st).2 hne)⟩
          · split
            · rename_i hpar
              have hne : st.CurTok ≠ tok_eof := by rw [hpar]; decide
              obtain ⟨r, st1, e1, h1⟩ := hParen st f hne hm (by omega)
              exact ⟨r, st1, e1, Or.inl h1⟩
            · exact ⟨_, _, rfl, Or.inr ⟨rfl, rfl, Nat.le_refl _⟩⟩
    have hExpr : ∀ (st : State D) (fuel : Nat), tokensLeft st ≤ m → 4 * m + 4 ≤ fuel →
        ∃ r st1, ParseExpression strtod fuel st = some (r, st1) ∧ progress st r st1 := by
      intro st fuel hm hf
      cases fuel with
      | zero => omega
      | succ f =>
        rw [ParseExpression]
        obtain ⟨r, st1, e1, hprog⟩ := hPrim st f hm (by omega)
        rw [e1]
        cases r with
        | none => exact ⟨_, _, rfl, hprog⟩
        | some LHS =>
          have h1 := progress_some hprog
          obtain ⟨r2, st2, e2, h2⟩ := hBin 0 LHS st1 f (Int.le_refl 0) (by omega) (by omega)
          exact ⟨r2, st2, e2, Or.inl (by omega)⟩
    refine ⟨hBin, hIdent, hParen, hPrim, hExpr, ?_⟩
    intro Args st fuel hm hf
    cases fuel with
    | zero => omega
    | succ f =>
      rw [ParseIdentifierExpr_args]
      obtain ⟨r, st1, e1, hprog⟩ := hExpr st f hm (by omega)
      have h1 := progress_le hprog
      rw [e1]
      cases r with
      | none => exact ⟨_, _, rfl, h1⟩
      | some Arg =>
        dsimp only
        split
        · exact ⟨_, _, rfl, h1⟩
        · split
          · exact ⟨_, _, rfl, by rw [tokensLeft_LogError]; exact h1⟩
          · rename_i hc1 hc2
            have hcomma : st1.CurTok = chr ',' := not_not.mp hc2
            have hne : st1.CurTok ≠ tok_eof := by rw [hcomma]; decide
            have h2 := (getNextToken_tokensLeft strtod st1).2 hne
            obtain ⟨_, _, _, _, _, ihArgs⟩ := ih (m - 1) (by omega)
            obtain ⟨r3, st3, e3, h3⟩ := ihArgs (Args ++ [Arg]) (getNextToken strtod st1) f
              (by omega) (by omega)
            exact ⟨r3, st3, e3, by omega⟩

end ParserTermination

section BinOpLoopClaim

variable {D : Type} (strtod : String → D)

/-- C18 (amended): when the loop of `ParseBinOpRHS` is entered and the
`ParsePrimary` call for the right-hand operand returns `nullptr`, the routine
does not return there: it goes round its loop again with the same `LHS`, from
the state `st1` the failed primary left. It then returns (its `LHS`) when the
token current in `st1` has a precedence below `ExprPrec`; and called with
`ExprPrec ≥ 0`, as `ParseExpression` calls it, it always returns once the fuel
covers the tokens left. It does not return, whatever the fuel, when
`ExprPrec ≤ -1` and `st1` is at the end of the input. -/
theorem C18_failed_rhs_reenters_loop (fuel k : Nat) (p : Int) (LHS : ExprAST D)
    (st st1 : State D) (hloop : ¬ GetTokPrecedence st < p)
    (hfail : ParsePrimary strtod fuel (getNextToken strtod st) = some (none, st1)) :
    ParseBinOpRHS strtod (fuel + 1) p LHS st = ParseBinOpRHS strtod fuel p LHS st1 ∧
    (GetTokPrecedence st1 < p →
      ParseBinOpRHS strtod (fuel + 1) p LHS st = some (some LHS, st1)) ∧
    (0 ≤ p → ∃ r st2,
      ParseBinOpRHS strtod (4 * tokensLeft st + 1 + k) p LHS st = some (r, st2)) ∧
    (p ≤ -1 → st1.CurTok = tok_eof → st1.LastChar = EOF →
      ParseBinOpRHS strtod (fuel + 1) p LHS st = none ∧
      ∀ n, ParseBinOpRHS strtod n p LHS st1 = none) := by
  have hstep : ParseBinOpRHS strtod (fuel + 1) p LHS st
      = ParseBinOpRHS strtod fuel p LHS st1 := by
    rw [ParseBinOpRHS]
    simp only [hloop, if_false, hfail]
  refine ⟨hstep, ?_, ?_, ?_⟩
  · intro hlt
    rw [hstep]
    cases fuel with
    | zero => simp [ParsePrimary] at hfail
    | succ n => simp [ParseBinOpRHS, hlt]
  · intro hp
    obtain ⟨r, st2, e, _⟩ := (parse_returns strtod (tokensLeft st)).1 p LHS st
      (4 * tokensLeft st + 1 + k) hp (Nat.le_refl _) (by omega)
    exact ⟨r, st2, e⟩
  · intro hp htok hlast
    refine ⟨?_, fun n => ParseBinOpRHS_diverges strtod n p LHS st1 hp htok hlast⟩
    rw [hstep]
    exact ParseBinOpRHS_diverges strtod fuel p LHS st1 hp htok hlast

end BinOpLoopClaim

/-- C18 as stated fails: on `1 + ;`, with `+` current and `Number(1)` the
left-hand side, the primary after `+` returns `nullptr`, and `ParseBinOpRHS`
returns (`Number(1)`, with `;` current) instead of looping for ever. -/
theorem C18_failed_rhs_returns :
    (ParsePrimary id 1 (getNextToken id (getNextToken id (start "1 + ;")))).map
        (fun r => r.1.isSome) = some false ∧
    (ParseBinOpRHS id 2 0 (ExprAST.Number "1") (getNextToken id (start "1 + ;"))).map
        (fun r => (r.1, r.2.CurTok)) = some (some (ExprAST.Number "1"), chr ';') :=
  ⟨rfl, rfl⟩

/-- On `1 + ;` the failed primary leaves `;` current, which is no operator, and
`ParseBinOpRHS(0, Number(1))` returns `Number(1)`. -/
theorem C18_failed_rhs_reenters_loop_witness :
    ParseBinOpRHS id 2 0 (ExprAST.Number "1") (getNextToken id (start "1 + ;"))
      = some (some (ExprAST.Number "1"),
          LogError "unknown token when expecting an expression"
            (getNextToken id (getNextToken id (start "1 + ;")))) :=
  (C18_failed_rhs_reenters_loop id 1 0 0 (ExprAST.Number "1")
    (getNextToken id (start "1 + ;")) _ (by decide) rfl).2.1 (by decide)

/-! ## Keywords and identifiers -/

section Keywords

variable {D : Type} (strtod : String → D)

/-- The lookahead and unread input matter to `gettok` only through what
skipping whitespace makes of them. -/
theorem gettokFuel_relook (n : Nat) (st : State D) (l2 : Int) (i2 : List Char)
    (h : skipSpaces l2 i2 = skipSpaces st.LastChar st.input) :
    gettokFuel strtod (n + 1) { st with LastChar := l2, input := i2 }
      = gettokFuel strtod (n + 1) st := by
  simp only [gettokFuel, gettokChar, h]

theorem commentLoop_closed (pre tail : List Char) (h : wsClosedComments true pre = true) :
    ∃ nl pre2, commentLoop (pre ++ tail) = (chr nl, pre2 ++ tail) ∧
      isspace (chr nl) = true ∧ wsClosedComments false pre2 = true ∧
      pre2.length < pre.length := by
  induction pre with
  | nil => simp [wsClosedComments] at h
  | cons c cs ih =>
    simp only [wsClosedComments] at h
    simp only [List.cons_append, commentLoop]
    split at h
    · rename_i hc
      have hc2 : ¬ (chr c ≠ EOF ∧ chr c ≠ chr '\n' ∧ chr c ≠ chr '\r') := by
        rcases hc with hc | hc <;> subst hc <;> decide
      rw [if_neg hc2]
      refine ⟨c, cs, rfl, ?_, h, by simp⟩
      rcases hc with hc | hc <;> subst hc <;> decide
    · rename_i hc
      have hc2 : chr c ≠ EOF ∧ chr c ≠ chr '\n' ∧ chr c ≠ chr '\r' := by
        refine ⟨chr_ne_EOF c, ?_, ?_⟩
        · intro e; exact hc (Or.inl (chr_inj.mp e))
        · intro e; exact hc (Or.inr (chr_inj.mp e))
      rw [if_pos hc2]
      obtain ⟨nl, pre2, e1, e2, e3, e4⟩ := ih h
      exact ⟨nl, pre2, e1, e2, e3, by simp only [List.length_cons]; omega⟩

theorem gettokFuel_skip_nil (n : Nat) (st : State D) (l c0 : Char) (tl : List Char)
    (hl : st.LastChar = chr l) (hin : l :: st.input = c0 :: tl)
    (hn : st.input.length < n) :
    gettokFuel strtod n st = gettok strtod { st with LastChar := chr c0, input := tl } := by
  simp only [List.cons.injEq] at hin
  obtain ⟨e1, e2⟩ := hin
  have e : ({ st with LastChar := chr c0, input := tl } : State D) = st := by
    cases st
    simp only at hl e2
    simp only [hl, e1, e2]
  rw [e]
  exact gettokFuel_eq_gettok strtod n st hn

/-- What `gettok` does before the token: when the characters it has to look at
(the lookahead `l`, then the unread input) are whitespace and complete
comments `pre` followed by a character `c0` that is neither, it goes on as from
the state with `c0` as lookahead. -/
theorem gettokFuel_skip (k : Nat) :
    ∀ (pre : List Char) (n : Nat) (st : State D) (l c0 : Char) (tl : List Char),
      pre.length ≤ k → st.LastChar = chr l → l :: st.input = pre ++ c0 :: tl →
      wsClosedComments false pre = true → isspace (chr c0) = false → c0 ≠ '#' →
      st.input.length < n →
      gettokFuel strtod n st
        = gettok strtod { st with LastChar := chr c0, input := tl } := by
  induction k with
  | zero =>
    intro pre n st l c0 tl hk hl hin _ _ _ hn
    have hp : pre = [] := List.length_eq_zero.mp (Nat.le_zero.mp hk)
    subst hp
    exact gettokFuel_skip_nil strtod n st l c0 tl hl hin hn
  | succ k ih =>
    intro pre n st l c0 tl hk hl hin hclosed hc0 hc0h hn
    cases pre with
    | nil => exact gettokFuel_skip_nil strtod n st l c0 tl hl hin hn
    | cons p pre1 =>
      simp only [List.cons_append, List.cons.injEq] at hin
      obtain ⟨e1, e2⟩ := hin
      subst e1
      simp only [List.length_cons] at hk
      cases n with
      | zero => omega
      | succ n1 =>
        simp only [wsClosedComments] at hclosed
        split at hclosed
        · rename_i hsp
          cases hinp : st.input with
          | nil =>
            rw [hinp] at e2
            have := congrArg List.length e2
            simp only [List.length_nil, List.length_append, List.length_cons] at this
            omega
          | cons x xs =>
            have hrel := gettokFuel_relook strtod n1 st (chr x) xs (by
              rw [hl, hinp]; simp only [skipSpaces, hsp, if_true])
            rw [← hrel]
            have hlen : xs.length < n1 + 1 := by
              rw [hinp] at hn; simp only [List.length_cons] at hn; omega
            exact ih pre1 (n1 + 1) { st with LastChar := chr x, input := xs } x c0 tl
              (by omega) rfl (by rw [← hinp]; exact e2) hclosed hc0 hc0h hlen
        · rename_i hsp
          split at hclosed
          · rename_i hp
            subst hp
            obtain ⟨nl, pre2, c1, c2, c3, c4⟩ := commentLoop_closed pre1 (c0 :: tl) hclosed
            have hsk : skipSpaces st.LastChar st.input = (chr '#', st.input) := by
              rw [hl]; exact skipSpaces_of_not_space _ _ (by decide)
            have a1 : isalpha (chr '#') = false := by decide
            have a2 : (isdigit (chr '#') || decide (chr '#' = chr '.')) = false := by decide
            have hne : chr nl ≠ EOF := chr_ne_EOF nl
            rw [gettokFuel]
            simp only [hsk, a1, a2, Bool.false_eq_true, if_false, if_true]
            simp only [e2, c1, hne, ne_eq, not_false_eq_true, if_true]
            have hlen : (pre2 ++ c0 :: tl).length < n1 := by
              rw [e2] at hn
              simp only [List.length_append, List.length_cons] at hn ⊢
              omega
            have hcl : wsClosedComments false (nl :: pre2) = true := by
              simp only [wsClosedComments, c2, if_true, c3]
            exact ih (nl :: pre2) n1
              { st with LastChar := chr nl, input := pre2 ++ c0 :: tl } nl c0 tl
              (by simp only [List.length_cons]; omega) rfl rfl hcl hc0 hc0h hlen
          · exact absurd hclosed (by simp)

/-- The identifier rule of `gettok` when the lookahead is the letter `c0` and
the unread input goes on with the rest `r` of the run. -/
theorem gettok_identifier_at (st : State D) (c0 : Char) (r rest : List Char)
    (hl : st.LastChar = chr c0) (hin : st.input = r ++ rest)
    (h0 : isalpha (chr c0) = true)
    (hrun : ∀ c ∈ r, isalnum (chr c) = true)
    (hmax : ∀ c ∈ rest.head?, isalnum (chr c) = false) :
    gettok strtod st
      = (if String.mk (c0 :: r) = "def" then tok_def
          else if String.mk (c0 :: r) = "extern" then tok_extern
          else tok_identifier,
         { st with IdentifierStr := String.mk (c0 :: r),
                   LastChar := (getchar rest).1,
                   input := (getchar rest).2 }) := by
  have hsk : skipSpaces st.LastChar st.input = (chr c0, r ++ rest) := by
    rw [hl, hin]
    exact skipSpaces_of_not_space _ _ (isalpha_not_space _ h0)
  have hid := identLoop_run (String.singleton (toChar (chr c0))) r rest hrun hmax
  have hd : (String.singleton (toChar (chr c0))).data ++ r = c0 :: r := by
    simp [String.singleton, String.push, toChar_chr]
  rw [hd] at hid
  simp only [gettok, gettokFuel, hsk, h0, if_true, hid]
  split
  · rfl
  · split <;> rfl

/-- Every token `gettok` returns is `tok_eof`, `tok_def`, `tok_extern`,
`tok_identifier`, `tok_number` or a character: none is below `tok_number`. -/
theorem gettokFuel_token_ge (n : Nat) (st : State D) (hge : EOF ≤ st.LastChar) :
    tok_number ≤ (gettokFuel strtod n st).1 := by
  induction n generalizing st with
  | zero => simp only [gettokFuel]; decide
  | succ n ih =>
    have hsk := skipSpaces_ge st.LastChar st.input hge
    simp only [gettokFuel]
    generalize skipSpaces st.LastChar st.input = sk at hsk
    split
    · split
      · dsimp only; decide
      · split
        · dsimp only; decide
        · dsimp only; decide
    · split
      · dsimp only; decide
      · split
        · split
          · exact ih _ (commentLoop_ge _)
          · simp only [gettokChar]
            split
            · dsimp only; decide
            · have := commentLoop_ge sk.2
              dsimp only
              simp only [EOF, tok_number] at *
              omega
        · simp only [gettokChar]
          split
          · dsimp only; decide
          · dsimp only
            simp only [EOF, tok_number] at *
            omega

/-- C11 (amended): whenever the characters `gettok` has to look at (the
lookahead `l`, then the unread input) are whitespace and complete comments
`pre`, then a maximal alphanumeric run `t = c0 :: r` that starts with a letter,
then `rest`, `gettok` returns `tok_def` when `t` is `def`, `tok_extern` when
`t` is `extern`, and `tok_identifier` for every other `t` (the words `if`,
`then`, `else`, `for`, `in`, `binary`, `unary`, `var` included); in all three
cases `IdentifierStr` is `t` and `LastChar` is the character after the run.
With `pre` empty the run starts in the lookahead, as after a one-character
token. And from no state whose lookahead is a character or `EOF` does `gettok`
return one of `tok_if`, `tok_then`, `tok_else`, `tok_for`, `tok_in`,
`tok_binary`, `tok_unary`, `tok_var`; the lookahead it leaves is again a
character or `EOF`. -/
theorem C11_keywords_are_def_and_extern (st : State D) (l : Char) (pre : List Char)
    (c0 : Char) (r rest : List Char)
    (hl : st.LastChar = chr l)
    (hin : l :: st.input = pre ++ c0 :: (r ++ rest))
    (hpre : wsClosedComments false pre = true)
    (h0 : isalpha (chr c0) = true)
    (hrun : ∀ c ∈ r, isalnum (chr c) = true)
    (hmax : ∀ c ∈ rest.head?, isalnum (chr c) = false) :
    gettok strtod st
      = (if String.mk (c0 :: r) = "def" then tok_def
          else if String.mk (c0 :: r) = "extern" then tok_extern
          else tok_identifier,
         { st with IdentifierStr := String.mk (c0 :: r),
                   LastChar := (getchar rest).1,
                   input := (getchar rest).2 }) ∧
    (∀ st1 : State D, EOF ≤ st1.LastChar →
      (gettok strtod st1).1 ∉
        [tok_if, tok_then, tok_else, tok_for, tok_in, tok_binary, tok_unary, tok_var] ∧
      EOF ≤ (gettok strtod st1).2.LastChar) := by
  constructor
  · have hns : isspace (chr c0) = false := isalpha_not_space _ h0
    have hnh : c0 ≠ '#' := by
      intro e; rw [e] at h0; exact absurd h0 (by decide)
    have hskip := gettokFuel_skip strtod pre.length pre (st.input.length + 1) st l c0
      (r ++ rest) (Nat.le_refl _) hl hin hpre hns hnh (Nat.lt_succ_self _)
    have hat := gettok_identifier_at strtod
      { st with LastChar := chr c0, input := r ++ rest } c0 r rest rfl rfl h0 hrun hmax
    show gettokFuel strtod (st.input.length + 1) st = _
    rw [hskip, hat]
  · intro st1 hge
    constructor
    · have h := gettokFuel_token_ge strtod (st1.input.length + 1) st1 hge
      have e : gettok strtod st1 = gettokFuel strtod (st1.input.length + 1) st1 := rfl
      rw [e]
      simp only [List.mem_cons, List.mem_singleton, List.not_mem_nil, or_false, not_or]
      simp only [tok_number, tok_if, tok_then, tok_else, tok_for, tok_in, tok_binary,
        tok_unary, tok_var] at h ⊢
      omega
    · exact (gettokFuel_lexSim strtod (st1.input.length + 1) st1 st1 rfl rfl hge).2.2.2.1

end Keywords

/-- In `f(then)` the run `then` starts in the lookahead once `f` and `(` are
read; it lexes to an identifier token with text `then`. In `#c` newline `def(`
the run after the comment lexes to `tok_def`. -/
theorem C11_keywords_are_def_and_extern_witness :
    gettok id (gettok id (gettok id (State.fresh "" "f(then)".toList)).2).2
      = (tok_identifier, { (gettok id (gettok id (State.fresh "" "f(then)".toList)).2).2 with
          IdentifierStr := "then", LastChar := chr ')', input := [] }) ∧
    gettok id (State.fresh "" "#c\ndef(".toList)
      = ( tok_def, { State.fresh "" "#c\ndef(".toList with
          IdentifierStr := "def", LastChar := chr '(', input := [] }) :=
  ⟨( C11_keywords_are_def_and_extern id
      (gettok id (gettok id (State.fresh "" "f(then)".toList)).2).2 't' [] 't'
      "hen".toList ")".toList rfl rfl (by decide) (by decide) (by decide) (by decide)).1,
    ( C11_keywords_are_def_and_extern id (State.fresh "" "#c\ndef(".toList) ' '
      " #c\n".toList 'd' "ef".toList "(".toList rfl rfl (by decide) (by decide) (by decide)
      (by decide)).1⟩

/-! ## The nodes `ParseBinOpRHS` builds -/

section Built

variable {D : Type} (strtod : String → D)

/-- The functions that record the nodes built return what the functions
without the record return. -/
theorem parse_tr_erase (fuel : Nat) :
    (∀ (st : State D) b,
      erase (ParseParenExpr_tr strtod fuel st b) = ParseParenExpr strtod fuel st) ∧
    (∀ (Args : List (ExprAST D)) (st : State D) b,
      erase (ParseIdentifierExpr_args_tr strtod fuel Args st b)
        = ParseIdentifierExpr_args strtod fuel Args st) ∧
    (∀ (st : State D) b,
      erase (ParseIdentifierExpr_tr strtod fuel st b) = ParseIdentifierExpr strtod fuel st) ∧
    (∀ (st : State D) b,
      erase (ParsePrimary_tr strtod fuel st b) = ParsePrimary strtod fuel st) ∧
    (∀ (st : State D) b,
      erase (ParseExpression_tr strtod fuel st b) = ParseExpression strtod fuel st) ∧
    (∀ (p : Int) (LHS : ExprAST D) (st : State D) b,
      erase (ParseBinOpRHS_tr strtod fuel p (some LHS) st b)
        = ParseBinOpRHS strtod fuel p LHS st) := by
  induction fuel with
  | zero =>
    refine ⟨?_, ?_, ?_, ?_, ?_, ?_⟩ <;> intros <;> rfl
  | succ fuel ih =>
    obtain ⟨ihParen, ihArgs, ihIdent, ihPrimary, ihExpr, ihBin⟩ := ih
    refine ⟨?_, ?_, ?_, ?_, ?_, ?_⟩
    · intro st b
      rw [ParseParenExpr_tr, ParseParenExpr, ← ihExpr (getNextToken strtod st) b]
      generalize ParseExpression_tr strtod fuel (getNextToken strtod st) b = x
      rcases x with _ | ⟨_ | V, st1, b1⟩
      · rfl
      · rfl
      · simp only [erase, Option.map_some']
        split <;> rfl
    · intro Args st b
      rw [ParseIdentifierExpr_args_tr, ParseIdentifierExpr_args, ← ihExpr st b]
      generalize ParseExpression_tr strtod fuel st b = x
      rcases x with _ | ⟨_ | Arg, st1, b1⟩
      · rfl
      · rfl
      · simp only [erase, Option.map_some']
        split
        · rfl
        · split
          · rfl
          · exact ihArgs _ _ _
    · intro st b
      rw [ParseIdentifierExpr_tr, ParseIdentifierExpr]
      dsimp only
      split
      · rfl
      · split
        · rw [← ihArgs [] (getNextToken strtod (getNextToken strtod st)) b]
          generalize ParseIdentifierExpr_args_tr strtod fuel []
            (getNextToken strtod (getNextToken strtod st)) b = x
          rcases x with _ | ⟨_ | Args, st1, b1⟩ <;> rfl
        · rfl
    · intro st b
      rw [ParsePrimary_tr, ParsePrimary]
      split
      · exact ihIdent _ _
      · split
        · rfl
        · split
          · exact ihParen _ _
          · rfl
    · intro st b
      rw [ParseExpression_tr, ParseExpression, ← ihPrimary st b]
      generalize ParsePrimary_tr strtod fuel st b = x
      rcases x with _ | ⟨_ | LHS, st1, b1⟩
      · rfl
      · rfl
      · exact ihBin _ _ _ _
    · intro p LHS st b
      rw [ParseBinOpRHS_tr, ParseBinOpRHS]
      dsimp only
      split
      · rfl
      · rw [← ihPrimary (getNextToken strtod st) b]
        generalize ParsePrimary_tr strtod fuel (getNextToken strtod st) b = x
        rcases x with _ | ⟨_ | RHS, st1, b1⟩
        · rfl
        · simp only [Option.isSome_none, Bool.false_eq_true, if_false]
          exact ihBin _ _ _ _
        · simp only [erase, Option.map_some', Option.isSome_some, Option.isNone_none, if_true]
          split <;> rfl

theorem ParseExpression_tr_erase (fuel : Nat) (st : State D) (b : List (BinaryExprAST D)) :
    erase (ParseExpression_tr strtod fuel st b) = ParseExpression strtod fuel st :=
  (parse_tr_erase strtod fuel).2.2.2.2.1 st b

theorem ParsePrimary_tr_erase (fuel : Nat) (st : State D) (b : List (BinaryExprAST D)) :
    erase (ParsePrimary_tr strtod fuel st b) = ParsePrimary strtod fuel st :=
  (parse_tr_erase strtod fuel).2.2.2.1 st b

theorem erase_eq_some {α : Type} {x : ResT α D} {r : Option α} {st1 : State D}
    {b1 : List (BinaryExprAST D)} (h : x = some (r, st1, b1)) : erase x = some (r, st1) := by
  rw [h]; rfl

theorem ParseDefinition_tr_erase (fuel : Nat) (st : State D) (b : List (BinaryExprAST D)) :
    erase (ParseDefinition_tr strtod fuel st b) = ParseDefinition strtod fuel st := by
  rw [ParseDefinition_tr, ParseDefinition]
  generalize ParsePrototype strtod fuel (getNextToken strtod st) = y
  rcases y with _ | ⟨_ | Proto, st1⟩
  · rfl
  · rfl
  · dsimp only
    rw [← ParseExpression_tr_erase strtod fuel st1 b]
    generalize ParseExpression_tr strtod fuel st1 b = x
    rcases x with _ | ⟨_ | E, st2, b1⟩ <;> rfl

theorem ParseTopLevelExpr_tr_erase (fuel : Nat) (st : State D) (b : List (BinaryExprAST D)) :
    erase (ParseTopLevelExpr_tr strtod fuel st b) = ParseTopLevelExpr strtod fuel st := by
  rw [ParseTopLevelExpr_tr, ParseTopLevelExpr, ← ParseExpression_tr_erase strtod fuel st b]
  generalize ParseExpression_tr strtod fuel st b = x
  rcases x with _ | ⟨_ | E, st2, b1⟩ <;> rfl

theorem builtOK_iff (ops : List Int) (n : BinaryExprAST D) :
    builtOK ops n = true ↔
      ∃ LHS RHS, n.LHS = some LHS ∧ n.RHS = some RHS ∧ n.Op ∈ ops ∧
        LHS.hasBinary = false ∧ RHS.hasBinary = false := by
  rcases n with ⟨Op, _ | LHS, _ | RHS⟩ <;> simp [builtOK, and_assoc]

/-- The nodes recorded are nodes as `ParseBinOpRHS` builds them with
`ExprPrec ≥ 0`: the operator is one of `+ - < >` and the operands are
trees returned by `ParsePrimary`, which contain no `Binary` node. -/
theorem parse_tr_built (fuel : Nat) :
    (∀ (st : State D) b r st1 b1,
      (∀ n ∈ b, builtOK [chr '+', chr '-', chr '<', chr '>'] n = true) →
      ParseParenExpr_tr strtod fuel st b = some (r, st1, b1) →
      ∀ n ∈ b1, builtOK [chr '+', chr '-', chr '<', chr '>'] n = true) ∧
    (∀ (Args : List (ExprAST D)) (st : State D) b r st1 b1,
      (∀ n ∈ b, builtOK [chr '+', chr '-', chr '<', chr '>'] n = true) →
      ParseIdentifierExpr_args_tr strtod fuel Args st b = some (r, st1, b1) →
      ∀ n ∈ b1, builtOK [chr '+', chr '-', chr '<', chr '>'] n = true) ∧
    (∀ (st : State D) b r st1 b1,
      (∀ n ∈ b, builtOK [chr '+', chr '-', chr '<', chr '>'] n = true) →
      ParseIdentifierExpr_tr strtod fuel st b = some (r, st1, b1) →
      ∀ n ∈ b1, builtOK [chr '+', chr '-', chr '<', chr '>'] n = true) ∧
    (∀ (st : State D) b r st1 b1,
      (∀ n ∈ b, builtOK [chr '+', chr '-', chr '<', chr '>'] n = true) →
      ParsePrimary_tr strtod fuel st b = some (r, st1, b1) →
      ∀ n ∈ b1, builtOK [chr '+', chr '-', chr '<', chr '>'] n = true) ∧
    (∀ (st : State D) b r st1 b1,
      (∀ n ∈ b, builtOK [chr '+', chr '-', chr '<', chr '>'] n = true) →
      ParseExpression_tr strtod fuel st b = some (r, st1, b1) →
      ∀ n ∈ b1, builtOK [chr '+', chr '-', chr '<', chr '>'] n = true) ∧
    (∀ (p : Int) (LHS : ExprAST D) (st : State D) b r st1 b1, 0 ≤ p →
      LHS.hasBinary = false →
      (∀ n ∈ b, builtOK [chr '+', chr '-', chr '<', chr '>'] n = true) →
      ParseBinOpRHS_tr strtod fuel p (some LHS) st b = some (r, st1, b1) →
      ∀ n ∈ b1, builtOK [chr '+', chr '-', chr '<', chr '>'] n = true) := by
  induction fuel with
  | zero =>
    refine ⟨?_, ?_, ?_, ?_, ?_, ?_⟩ <;> intros <;>
      simp_all [ParseParenExpr_tr, ParseIdentifierExpr_args_tr, ParseIdentifierExpr_tr,
        ParsePrimary_tr, ParseExpression_tr, ParseBinOpRHS_tr]
  | succ fuel ih =>
    obtain ⟨ihParen, ihArgs, ihIdent, ihPrimary, ihExpr, ihBin⟩ := ih
    refine ⟨?_, ?_, ?_, ?_, ?_, ?_⟩
    · intro st b r st1 b1 hb h
      rw [ParseParenExpr_tr] at h
      split at h
      · exact absurd h (by simp)
      · rename_i st2 b2 hinner
        simp only [Option.some.injEq, Prod.mk.injEq] at h
        obtain ⟨_, _, h3⟩ := h
        subst h3
        exact ihExpr _ _ _ _ _ hb hinner
      · rename_i V st2 b2 hinner
        have hb2 := ihExpr _ _ _ _ _ hb hinner
        split at h <;>
          · simp only [Option.some.injEq, Prod.mk.injEq] at h
            obtain ⟨_, _, h3⟩ := h
            subst h3
            exact hb2
    · intro Args st b r st1 b1 hb h
      rw [ParseIdentifierExpr_args_tr] at h
      split at h
      · exact absurd h (by simp)
      · rename_i st2 b2 hinner
        simp only [Option.some.injEq, Prod.mk.injEq] at h
        obtain ⟨_, _, h3⟩ := h
        subst h3
        exact ihExpr _ _ _ _ _ hb hinner
      · rename_i Arg st2 b2 hinner
        have hb2 := ihExpr _ _ _ _ _ hb hinner
        split at h
        · simp only [Option.some.injEq, Prod.mk.injEq] at h
          obtain ⟨_, _, h3⟩ := h
          subst h3
          exact hb2
        · split at h
          · simp only [Option.some.injEq, Prod.mk.injEq] at h
            obtain ⟨_, _, h3⟩ := h
            subst h3
            exact hb2
          · exact ihArgs _ _ _ _ _ _ hb2 h
    · intro st b r st1 b1 hb h
      rw [ParseIdentifierExpr_tr] at h
      dsimp only at h
      split at h
      · simp only [Option.some.injEq, Prod.mk.injEq] at h
        obtain ⟨_, _, h3⟩ := h
        subst h3
        exact hb
      · split at h
        · split at h
          · exact absurd h (by simp)
          · rename_i st3 b3 hargs
            simp only [Option.some.injEq, Prod.mk.injEq] at h
            obtain ⟨_, _, h3⟩ := h
            subst h3
            exact ihArgs _ _ _ _ _ _ hb hargs
          · rename_i Args st3 b3 hargs
            simp only [Option.some.injEq, Prod.mk.injEq] at h
            obtain ⟨_, _, h3⟩ := h
            subst h3
            exact ihArgs _ _ _ _ _ _ hb hargs
        · simp only [Option.some.injEq, Prod.mk.injEq] at h
          obtain ⟨_, _, h3⟩ := h
          subst h3
          exact hb
    · intro st b r st1 b1 hb h
      rw [ParsePrimary_tr] at h
      split at h
      · exact ihIdent _ _ _ _ _ hb h
      · split at h
        · simp only [Option.some.injEq, Prod.mk.injEq] at h
          obtain ⟨_, _, h3⟩ := h
          subst h3
          exact hb
        · split at h
          · exact ihParen _ _ _ _ _ hb h
          · simp only [Option.some.injEq, Prod.mk.injEq] at h
            obtain ⟨_, _, h3⟩ := h
            subst h3
            exact hb
    · intro st b r st1 b1 hb h
      rw [ParseExpression_tr] at h
      split at h
      · exact absurd h (by simp)
      · rename_i st2 b2 hprim
        simp only [Option.some.injEq, Prod.mk.injEq] at h
        obtain ⟨_, _, h3⟩ := h
        subst h3
        exact ihPrimary _ _ _ _ _ hb hprim
      · rename_i LHS st2 b2 hprim
        have hb2 := ihPrimary _ _ _ _ _ hb hprim
        have hL : LHS.hasBinary = false := by
          have e := erase_eq_some hprim
          rw [ParsePrimary_tr_erase] at e
          exact ParsePrimary_noBinary strtod fuel _ _ _ e
        exact ihBin 0 LHS _ _ _ _ _ (Int.le_refl 0) hL hb2 h
    · intro p LHS st b r st1 b1 hp hL hb h
      rw [ParseBinOpRHS_tr] at h
      dsimp only at h
      split at h
      · simp only [Option.some.injEq, Prod.mk.injEq] at h
        obtain ⟨_, _, h3⟩ := h
        subst h3
        exact hb
      · rename_i hloop
        split at h
        · exact absurd h (by simp)
        · rename_i RHSp st2 b2 hprim
          have hb2 := ihPrimary _ _ _ _ _ hb hprim
          rcases RHSp with _ | RHS
          · simp only [Option.isSome_none, Bool.false_eq_true, if_false] at h
            exact ihBin p LHS _ _ _ _ _ hp hL hb2 h
          · have hR : RHS.hasBinary = false := by
              have e := erase_eq_some hprim
              rw [ParsePrimary_tr_erase] at e
              exact ParsePrimary_noBinary strtod fuel _ _ _ e
            simp only [Option.isSome_some, Option.isNone_none, if_true] at h
            split at h
            · rename_i hnext
              simp only [Option.some.injEq, Prod.mk.injEq] at h
              obtain ⟨_, _, h3⟩ := h
              subst h3
              have hop := GetTokPrecedence_lt_imp st st2 p hp hloop hnext
              intro n hn
              rcases List.mem_append.mp hn with hn | hn
              · exact hb2 n hn
              · rw [List.mem_singleton.mp hn]
                simp only [builtOK, hL, hR, Bool.not_false, Bool.and_true, decide_eq_true_eq]
                exact hop
            · simp only [Option.some.injEq, Prod.mk.injEq] at h
              obtain ⟨_, _, h3⟩ := h
              subst h3
              exact hb2

mutual

theorem binaryOpsIn_of_noBinary (ops : List Int) :
    ∀ e : ExprAST D, e.hasBinary = false → e.binaryOpsIn ops = true
  | .Number _, _ => rfl
  | .Variable _, _ => rfl
  | .Binary _ _ _, h => by simp [ExprAST.hasBinary] at h
  | .Call _ Args, h => by
    simp only [ExprAST.hasBinary] at h
    simp only [ExprAST.binaryOpsIn]
    exact binaryOpsInList_of_noBinary ops Args h

theorem binaryOpsInList_of_noBinary (ops : List Int) :
    ∀ l : List (ExprAST D), hasBinaryList l = false → binaryOpsInList ops l = true
  | [], _ => rfl
  | a :: as, h => by
    simp only [hasBinaryList, Bool.or_eq_false_iff] at h
    simp only [binaryOpsInList, binaryOpsIn_of_noBinary ops a h.1,
      binaryOpsInList_of_noBinary ops as h.2, Bool.and_self]

end

/-- What holds of a record of nodes all built as `parse_tr_built` says. -/
theorem built_nodes (built : List (BinaryExprAST D))
    (h : ∀ n ∈ built, builtOK [chr '+', chr '-', chr '<', chr '>'] n = true) :
    ∀ n ∈ built, ∃ LHS RHS, n.LHS = some LHS ∧ n.RHS = some RHS ∧
      n.Op ∈ [chr '+', chr '-', chr '<', chr '>'] ∧
      LHS.hasBinary = false ∧ RHS.hasBinary = false ∧
      (ExprAST.Binary n.Op LHS RHS).binaryOpsIn
        [chr '+', chr '-', chr '*', chr '<', chr '>'] = true := by
  intro n hn
  obtain ⟨LHS, RHS, eL, eR, hop, hL, hR⟩ := (builtOK_iff _ n).mp (h n hn)
  refine ⟨LHS, RHS, eL, eR, hop, hL, hR, ?_⟩
  have hop2 : n.Op ∈ [chr '+', chr '-', chr '*', chr '<', chr '>'] := by
    simp only [List.mem_cons, List.mem_singleton, List.not_mem_nil, or_false] at hop ⊢
    tauto
  simp only [ExprAST.binaryOpsIn, binaryOpsIn_of_noBinary _ LHS hL,
    binaryOpsIn_of_noBinary _ RHS hR, Bool.and_true, decide_eq_true_eq]
  exact hop2

/-- The check `if (!LHS) return nullptr` of `ParseExpression` is what keeps the
left operand from being null: `ParseBinOpRHS` given a null `LHS` at `+ 2 * 3`
builds a `BinaryExprAST` with a null left operand. -/
theorem ParseBinOpRHS_tr_null_LHS :
    (ParseBinOpRHS_tr id 2 0 none (start "+2*3") []).map (fun r => r.2.2)
      = some [⟨chr '+', none, some (ExprAST.Number "2")⟩] := rfl

/-- C16: with the parser recording every `BinaryExprAST` that the
`std::make_unique` of `ParseBinOpRHS` builds, with the operator and the two
operand pointers given to it (the recording functions return what the plain
ones return), for every state and fuel every `BinaryExprAST` built during
`ParseExpression`, `ParseDefinition` or `ParseTopLevelExpr` has an operator
that is one of `+ - < >` (so one of `+ - * < >`) and two operand pointers that
are not null, each a tree that `ParsePrimary` returned, without a `Binary`
node inside; and every tree returned has only `Binary` nodes with an operator
among `+ - * < >` (none has a `Binary` node at all). -/
theorem C16_binary_nodes_well_formed (fuel : Nat) (st : State D) :
    (erase (ParseExpression_tr strtod fuel st []) = ParseExpression strtod fuel st ∧
      erase (ParseDefinition_tr strtod fuel st []) = ParseDefinition strtod fuel st ∧
      erase (ParseTopLevelExpr_tr strtod fuel st []) = ParseTopLevelExpr strtod fuel st) ∧
    (∀ r st1 built, ParseExpression_tr strtod fuel st [] = some (r, st1, built) →
      (∀ n ∈ built, ∃ LHS RHS, n.LHS = some LHS ∧ n.RHS = some RHS ∧
        n.Op ∈ [chr '+', chr '-', chr '<', chr '>'] ∧
        LHS.hasBinary = false ∧ RHS.hasBinary = false ∧
        (ExprAST.Binary n.Op LHS RHS).binaryOpsIn
          [chr '+', chr '-', chr '*', chr '<', chr '>'] = true) ∧
      (∀ e, r = some e →
        e.binaryOpsIn [chr '+', chr '-', chr '*', chr '<', chr '>'] = true)) ∧
    (∀ r st1 built, ParseDefinition_tr strtod fuel st [] = some (r, st1, built) →
      (∀ n ∈ built, ∃ LHS RHS, n.LHS = some LHS ∧ n.RHS = some RHS ∧
        n.Op ∈ [chr '+', chr '-', chr '<', chr '>'] ∧
        LHS.hasBinary = false ∧ RHS.hasBinary = false ∧
        (ExprAST.Binary n.Op LHS RHS).binaryOpsIn
          [chr '+', chr '-', chr '*', chr '<', chr '>'] = true) ∧
      (∀ F, r = some F →
        F.Body.binaryOpsIn [chr '+', chr '-', chr '*', chr '<', chr '>'] = true)) ∧
    (∀ r st1 built, ParseTopLevelExpr_tr strtod fuel st [] = some (r, st1, built) →
      (∀ n ∈ built, ∃ LHS RHS, n.LHS = some LHS ∧ n.RHS = some RHS ∧
        n.Op ∈ [chr '+', chr '-', chr '<', chr '>'] ∧
        LHS.hasBinary = false ∧ RHS.hasBinary = false ∧
        (ExprAST.Binary n.Op LHS RHS).binaryOpsIn
          [chr '+', chr '-', chr '*', chr '<', chr '>'] = true) ∧
      (∀ F, r = some F →
        F.Body.binaryOpsIn [chr '+', chr '-', chr '*', chr '<', chr '>'] = true)) := by
  have hExpr : ∀ (s0 : State D) r st1 built,
      ParseExpression_tr strtod fuel s0 [] = some (r, st1, built) →
      (∀ n ∈ built, builtOK [chr '+', chr '-', chr '<', chr '>'] n = true) ∧
      (∀ e, r = some e →
        e.binaryOpsIn [chr '+', chr '-', chr '*', chr '<', chr '>'] = true) := by
    intro s0 r st1 built h
    refine ⟨(parse_tr_built strtod fuel).2.2.2.2.1 s0 [] r st1 built (by simp) h, ?_⟩
    intro e he
    subst he
    have e1 := erase_eq_some h
    rw [ParseExpression_tr_erase] at e1
    exact ParseExpression_binaryOpsIn strtod _ fuel s0 e st1 e1
  refine ⟨⟨ParseExpression_tr_erase strtod fuel st [], ParseDefinition_tr_erase strtod fuel st [],
    ParseTopLevelExpr_tr_erase strtod fuel st []⟩, ?_, ?_, ?_⟩
  · intro r st1 built h
    obtain ⟨h1, h2⟩ := hExpr st r st1 built h
    exact ⟨built_nodes built h1, h2⟩
  · intro r st1 built h
    rw [ParseDefinition_tr] at h
    split at h
    · exact absurd h (by simp)
    · simp only [Option.some.injEq, Prod.mk.injEq] at h
      obtain ⟨h1, _, h3⟩ := h
      subst h1 h3
      exact ⟨by simp, by simp⟩
    · split at h
      · exact absurd h (by simp)
      · rename_i E st3 b3 hE
        simp only [Option.some.injEq, Prod.mk.injEq] at h
        obtain ⟨h1, _, h3⟩ := h
        subst h1 h3
        obtain ⟨g1, g2⟩ := hExpr _ _ _ _ hE
        refine ⟨built_nodes _ g1, ?_⟩
        intro F hF
        simp only [Option.some.injEq] at hF
        subst hF
        exact g2 E rfl
      · rename_i st3 b3 hE
        simp only [Option.some.injEq, Prod.mk.injEq] at h
        obtain ⟨h1, _, h3⟩ := h
        subst h1 h3
        obtain ⟨g1, _⟩ := hExpr _ _ _ _ hE
        exact ⟨built_nodes _ g1, by simp⟩
  · intro r st1 built h
    rw [ParseTopLevelExpr_tr] at h
    split at h
    · exact absurd h (by simp)
    · rename_i E st3 b3 hE
      simp only [Option.some.injEq, Prod.mk.injEq] at h
      obtain ⟨h1, _, h3⟩ := h
      subst h1 h3
      obtain ⟨g1, g2⟩ := hExpr _ _ _ _ hE
      refine ⟨built_nodes _ g1, ?_⟩
      intro F hF
      simp only [Option.some.injEq] at hF
      subst hF
      exact g2 E rfl
    · rename_i st3 b3 hE
      simp only [Option.some.injEq, Prod.mk.injEq] at h
      obtain ⟨h1, _, h3⟩ := h
      subst h1 h3
      obtain ⟨g1, _⟩ := hExpr _ _ _ _ hE
      exact ⟨built_nodes _ g1, by simp⟩

end Built

/-- On `1+2*3` one `BinaryExprAST` is built, with operator `+` and operands
`Number(1)` and `Number(2)`, and it is as the theorem says; on `x<y*z` the one
built has operator `<` and operands `Variable(x)` and `Variable(y)`. -/
theorem C16_binary_nodes_well_formed_witness :
    (ParseExpression_tr id 3 (start "1+2*3") []).map (fun r => r.2.2)
      = some [⟨chr '+', some (ExprAST.Number "1"), some (ExprAST.Number "2")⟩] ∧
    (ParseExpression_tr id 6 (start "x<y*z") []).map (fun r => r.2.2)
      = some [⟨chr '<', some (ExprAST.Variable "x"), some (ExprAST.Variable "y")⟩] ∧
    (∀ n ∈ [(⟨chr '+', some (ExprAST.Number "1"), some (ExprAST.Number "2")⟩ :
        BinaryExprAST String)],
      ∃ LHS RHS, n.LHS = some LHS ∧ n.RHS = some RHS ∧
        n.Op ∈ [chr '+', chr '-', chr '<', chr '>'] ∧
        LHS.hasBinary = false ∧ RHS.hasBinary = false ∧
        (ExprAST.Binary n.Op LHS RHS).binaryOpsIn
          [chr '+', chr '-', chr '*', chr '<', chr '>'] = true) :=
  ⟨rfl, rfl,
    ((C16_binary_nodes_well_formed id 3 (start "1+2*3")).2.1 none
      (getNextToken id (getNextToken id (getNextToken id (start "1+2*3"))))
      [⟨chr '+', some (ExprAST.Number "1"), some (ExprAST.Number "2")⟩] rfl).1⟩

end Kaleidoscope
